import Mathlib

/-!
Verification of the webbridge build-time reflection tools.

The development shallowly embeds the two core source modules:
* `tools/tstypes.py` — the C++ → TypeScript type mapper `cpp_to_ts_type`;
* `tools/parser.py`  — the tree-sitter based class extractor
  (`_normalize_type`, `_parse_method`, `_extract_all_members`,
  `_parse_class`, `_find_class`).

Python strings are modelled as `List Char` (`Str`); Python `None` results and
raised exceptions are modelled with `Option` (a raised exception is `none`).
Recursions that are not structural in the source are given an explicit fuel
argument so that every definition evaluates by kernel reduction; fuel
sufficiency is proved where it matters.
-/

/-- Python strings are modelled as lists of characters. -/
abbrev Str := List Char

/-- Literal helper: the character list of a Lean string literal. -/
def str (s : String) : Str := s.data

/-- Characters removed by Python `str.strip()` (ASCII whitespace:
space, tab, newline, carriage return, vertical tab, form feed). -/
def isPySpace (c : Char) : Bool :=
  c = ' ' || c = '\t' || c = '\n' || c = '\r' || c = Char.ofNat 11 || c = Char.ofNat 12

/-- Python `s.strip()`: drop leading and trailing whitespace. -/
def pyStrip (l : Str) : Str :=
  ((l.dropWhile isPySpace).reverse.dropWhile isPySpace).reverse

/-- Python `s.replace(pat, rep)` for a non-empty `pat`: replace all
non-overlapping occurrences left to right.  The fuel is the length of the
remaining string; since every step consumes at least one character when
`pat ≠ []`, `s.length` fuel is always enough (see `replaceAllFuel_zero_iff`
style facts below — the `0` case is only reached on the empty remainder). -/
def replaceAllFuel (pat rep : Str) : Nat → Str → Str
  | 0, s => s
  | _ + 1, [] => []
  | f + 1, c :: rest =>
    if pat ≠ [] ∧ pat.isPrefixOf (c :: rest) then
      rep ++ replaceAllFuel pat rep f ((c :: rest).drop pat.length)
    else
      c :: replaceAllFuel pat rep f rest

/-- Python `s.replace(pat, rep)` (used only with non-empty `pat`). -/
def replaceAll (s pat rep : Str) : Str := replaceAllFuel pat rep s.length s

/-- Python `s.index(ch)`: position of the first occurrence, `none` when absent
(the source raises `ValueError` there). -/
def idxOfChar : Str → Char → Option Nat
  | [], _ => none
  | c :: rest, ch => if c = ch then some 0 else (idxOfChar rest ch).map (· + 1)

/-- Python `s.rindex(ch)`: position of the last occurrence, `none` when absent
(the source raises `ValueError` there). -/
def ridxOfChar (l : Str) (ch : Char) : Option Nat :=
  (idxOfChar l.reverse ch).map (fun i => l.length - 1 - i)

/-- Python slice `l[a:b]` for natural bounds. -/
def listSlice (l : Str) (a b : Nat) : Str := (l.drop a).take (b - a)

/-- Python substring test `pat in hay`. -/
def hasSubstr : Str → Str → Bool
  | hay, pat =>
    if pat.isPrefixOf hay then true
    else
      match hay with
      | [] => false
      | _ :: t => hasSubstr t pat

/-- Python `key in dict` plus `dict[key]` over an association list kept in the
source's insertion order. -/
def tableLookup (k : Str) : List (Str × Str) → Option Str
  | [] => none
  | (a, b) :: rest => if k = a then some b else tableLookup k rest

-- ==========================================================================
-- tools/tstypes.py
-- ==========================================================================

/-- SCALAR_MAP from `tstypes.py`, in source order. -/
def SCALAR_MAP : List (Str × Str) :=
  [ (str "bool", str "boolean"),
    (str "char", str "number"),
    (str "signed char", str "number"),
    (str "unsigned char", str "number"),
    (str "short", str "number"),
    (str "short int", str "number"),
    (str "signed short", str "number"),
    (str "signed short int", str "number"),
    (str "unsigned short", str "number"),
    (str "unsigned short int", str "number"),
    (str "int", str "number"),
    (str "signed", str "number"),
    (str "signed int", str "number"),
    (str "unsigned", str "number"),
    (str "unsigned int", str "number"),
    (str "long", str "number"),
    (str "long int", str "number"),
    (str "signed long", str "number"),
    (str "signed long int", str "number"),
    (str "unsigned long", str "number"),
    (str "unsigned long int", str "number"),
    (str "long long", str "number"),
    (str "long long int", str "number"),
    (str "signed long long", str "number"),
    (str "signed long long int", str "number"),
    (str "unsigned long long", str "number"),
    (str "unsigned long long int", str "number"),
    (str "uint8_t", str "number"),
    (str "uint16_t", str "number"),
    (str "uint32_t", str "number"),
    (str "uint64_t", str "number"),
    (str "int8_t", str "number"),
    (str "int16_t", str "number"),
    (str "int32_t", str "number"),
    (str "int64_t", str "number"),
    (str "size_t", str "number"),
    (str "ssize_t", str "number"),
    (str "float", str "number"),
    (str "double", str "number"),
    (str "long double", str "number"),
    (str "std::string", str "string"),
    (str "nullptr_t", str "null") ]

/-- Keys of SEQ_CONTAINER_MAP from `tstypes.py`, in source (dict insertion)
order; the values are unused by `cpp_to_ts_type`, which hardcodes `[]`. -/
def SEQ_NAMES : List Str :=
  [str "std::vector", str "std::deque", str "std::list", str "std::array"]

/-- Keys of ASSOC_CONTAINER_MAP from `tstypes.py`, in source order; the values
are unused by `cpp_to_ts_type`, which hardcodes `Record<string, ...>`. -/
def ASSOC_NAMES : List Str :=
  [str "std::map", str "std::unordered_map"]

/-- Qualifier stripping at the top of `cpp_to_ts_type`:
`cpp_type.strip()` then `.replace('const ', '').replace('&', '').replace('*', '').strip()`. -/
def stripAll (l : Str) : Str :=
  let t := pyStrip l
  pyStrip (replaceAll (replaceAll (replaceAll t (str "const ") []) (str "&") []) (str "*") [])

/-- Depth-aware scan for the first comma at template depth 0, from
`cpp_to_ts_type` (the `for i, c in enumerate(types)` loop; `depth` is an
integer in Python, so it may go negative on unbalanced input). -/
def findTopCommaAux : Str → Int → Nat → Option Nat
  | [], _, _ => none
  | c :: rest, depth, i =>
    if c = '<' then findTopCommaAux rest (depth + 1) (i + 1)
    else if c = '>' then findTopCommaAux rest (depth - 1) (i + 1)
    else if c = ',' ∧ depth = 0 then some i
    else findTopCommaAux rest depth (i + 1)

/-- Position of the first top-level comma (`comma_pos` in the source, with
`none` for the sentinel `-1`). -/
def findTopComma (types : Str) : Option Nat := findTopCommaAux types 0 0

/-- The element type handed to the recursive call in the sequence-container
branch: `inner = cpp_type[start:end].strip()`, and for `std::array` with a
comma present, `inner[:inner.index(',')].strip()`. -/
def seqInner (nm t : Str) (li ri : Nat) : Str :=
  if nm = str "std::array" then
    match idxOfChar (pyStrip (listSlice t (li + 1) ri)) ',' with
    | some ci => pyStrip ((pyStrip (listSlice t (li + 1) ri)).take ci)
    | none => pyStrip (listSlice t (li + 1) ri)
  else pyStrip (listSlice t (li + 1) ri)

/-- Body of the sequence-container branch of `cpp_to_ts_type` (the
`for container_name in SEQ_CONTAINER_MAP` loop, once a prefix has matched).
`recur` stands for the recursive call; `none` models the `ValueError` raised
by `rindex` when `>` is absent. -/
def seqStep (recur : Str → Option Str) (nm t : Str) : Option Str :=
  match idxOfChar t '<', ridxOfChar t '>' with
  | some li, some ri => (recur (seqInner nm t li ri)).map (fun its => its ++ str "[]")
  | _, _ => none

/-- `types = cpp_type[start:end].strip()` in the associative branch. -/
def assocTypes (t : Str) (li ri : Nat) : Str := pyStrip (listSlice t (li + 1) ri)

/-- `key_type = types[:comma_pos].strip()`. -/
def assocKey (types : Str) (cp : Nat) : Str := pyStrip (types.take cp)

/-- `value_type = types[comma_pos+1:].strip()`. -/
def assocValue (types : Str) (cp : Nat) : Str := pyStrip (types.drop (cp + 1))

/-- Body of the associative-container branch of `cpp_to_ts_type`, once a
prefix has matched.  When no top-level comma exists the Python loop falls
through and the function returns `'unknown'` (no other associative name can
match, as the two prefixes are mutually exclusive). -/
def assocStep (recur : Str → Option Str) (t : Str) : Option Str :=
  match idxOfChar t '<', ridxOfChar t '>' with
  | some li, some ri =>
    match findTopComma (assocTypes t li ri) with
    | some cp =>
      if assocKey (assocTypes t li ri) cp = str "std::string" then
        (recur (assocValue (assocTypes t li ri) cp)).map
          (fun vts => str "Record<string, " ++ vts ++ str ">")
      else some (str "unknown")
    | none => some (str "unknown")
  | _, _ => none

/-- Fueled embedding of `cpp_to_ts_type` from `tstypes.py`.  The recursion of
the source is on a strictly shorter string, so `l.length + 1` fuel always
suffices (`cppToTsFuel_fuel_eq`).  `none` models a raised `ValueError`. -/
def cppToTsFuel : Nat → Str → Option Str
  | 0, _ => none
  | fuel + 1, l =>
    let t := stripAll l
    match tableLookup t SCALAR_MAP with
    | some v => some v
    | none =>
      match SEQ_NAMES.find? (fun nm => List.isPrefixOf (nm ++ ['<']) t) with
      | some nm => seqStep (cppToTsFuel fuel) nm t
      | none =>
        match ASSOC_NAMES.find? (fun nm => List.isPrefixOf (nm ++ ['<']) t) with
        | some _ => assocStep (cppToTsFuel fuel) t
        | none => some (str "unknown")

/-- `cpp_to_ts_type` from `tstypes.py`: result `some ts` is a returned string,
`none` is a raised `ValueError`. -/
def cpp_to_ts_type (l : Str) : Option Str := cppToTsFuel (l.length + 1) l

-- ==========================================================================
-- tools/parser.py — data model
-- ==========================================================================

/-- A tree-sitter syntax node as used by `parser.py`: the type tag
(`node.type`), the source text of the node's byte range
(`_get_node_text(source_code, node)`), and the ordered children
(`node.children`). -/
inductive Node : Type where
  | mk (ty : Str) (text : Str) (children : List Node)

def Node.ty : Node → Str
  | .mk t _ _ => t

def Node.text : Node → Str
  | .mk _ tx _ => tx

def Node.children : Node → List Node
  | .mk _ _ cs => cs

-- Number of nodes and list cells of a tree; an upper bound on the length of
-- any chain of recursive `_find_class` calls, used as default fuel.
mutual

def nodeSize : Node → Nat
  | .mk _ _ cs => 1 + nodeListSize cs

def nodeListSize : List Node → Nat
  | [] => 1
  | c :: rest => 1 + nodeSize c + nodeListSize rest

end

/-- `_find_child_by_type(node, *types)`: first child whose type tag is among
`tys`. -/
def findChildByType (n : Node) (tys : List Str) : Option Node :=
  n.children.find? (fun c => tys.contains c.ty)

/-- PropertyInfo from `parser.py`. -/
structure PropertyInfo where
  name : Str
  type_name : Str
deriving DecidableEq

/-- EventInfo from `parser.py`. -/
structure EventInfo where
  name : Str
  arg_types : List Str
deriving DecidableEq

/-- ConstInfo from `parser.py`. -/
structure ConstInfo where
  name : Str
  type_name : Str
  is_static : Bool
deriving DecidableEq

/-- EnumInfo from `parser.py`. -/
structure EnumInfo where
  name : Str
  enum_values : List Str
  is_enum_class : Bool
deriving DecidableEq

/-- MethodInfo from `parser.py`. -/
structure MethodInfo where
  name : Str
  return_type : Str
  parameters : List (Str × Str)
  is_async : Bool
deriving DecidableEq

/-- ClassInfo from `parser.py` (`namespace` is a reserved word in Lean, hence
`namespace_path`). -/
structure ClassInfo where
  name : Str
  namespace_path : List Str
  properties : List PropertyInfo
  events : List EventInfo
  constants : List ConstInfo
  enums : List EnumInfo
  constructors : List MethodInfo
  sync_methods : List MethodInfo
  async_methods : List MethodInfo
deriving DecidableEq

/-- A fresh ClassInfo, as built by `ClassInfo(name=..., namespace=...)` with
all member collections defaulted empty. -/
def mkClassInfo (name : Str) (ns : List Str) : ClassInfo :=
  ⟨name, ns, [], [], [], [], [], [], []⟩

/-- The implicit default constructor synthesized by `_parse_class`. -/
def defaultCtor (name : Str) : MethodInfo := ⟨name, [], [], false⟩

-- ==========================================================================
-- tools/parser.py — type renderer `_normalize_type`
-- ==========================================================================

/-- Python `text[0].isalnum()` (ASCII letters and digits; all tags and source
fragments in scope are ASCII). -/
def headIsAlnum : Str → Bool
  | [] => false
  | c :: _ => c.isAlphanum

/-- Python `text[-1].isalnum()`. -/
def lastIsAlnum (l : Str) : Bool := headIsAlnum l.reverse

mutual

/-- `_normalize_type(source_code, node)` from `parser.py`: leaves render as
stripped text, composite nodes concatenate rendered children (a tree-sitter
`Node` is always truthy, so the `or not node` disjunct of the source never
fires). -/
def normalizeType : Node → Str
  | .mk ty tx cs =>
    if ty = str "comment" then []
    else
      match cs with
      | [] => pyStrip tx
      | _ :: _ => normalizeTypeGo cs [] false

/-- The `for child in node.children` loop of `_normalize_type`: `acc` holds
`''.join(parts)` so far and `prev` is `prev_needs_space`. -/
def normalizeTypeGo : List Node → Str → Bool → Str
  | [], acc, _ => acc
  | c :: rest, acc, prev =>
    if c.ty = str "comment" ∨ c.ty = str "initializer_list" ∨ c.ty = str "argument_list" then
      normalizeTypeGo rest acc prev
    else if c.text = str "\x7b" then acc
    else
      match normalizeType c with
      | [] => normalizeTypeGo rest acc prev
      | t0 :: trest =>
        normalizeTypeGo rest
          (if acc ≠ [] ∧ prev ∧ headIsAlnum (t0 :: trest) then acc ++ [' '] ++ (t0 :: trest)
           else acc ++ (t0 :: trest))
          (lastIsAlnum (t0 :: trest))

end

-- ==========================================================================
-- tools/parser.py — member classifier
-- ==========================================================================

/-- `_extract_template_info(source_code, type_node)`. -/
def extractTemplateInfo (tn : Node) : Option Str × Option Node :=
  ((findChildByType tn [str "type_identifier"]).map Node.text,
   findChildByType tn [str "template_argument_list"])

/-- Parameter-name lookup of `_parse_parameters`: the
`for node_type in ('identifier', 'reference_declarator', 'pointer_declarator')`
loop with its break-on-first-found and the `'arg'` placeholder. -/
def paramName (c : Node) : Str :=
  match findChildByType c [str "identifier"] with
  | some nn => nn.text
  | none =>
    match findChildByType c [str "reference_declarator"] with
    | some nn =>
      match findChildByType nn [str "identifier"] with
      | some idn => idn.text
      | none => str "arg"
    | none =>
      match findChildByType c [str "pointer_declarator"] with
      | some nn =>
        match findChildByType nn [str "identifier"] with
        | some idn => idn.text
        | none => str "arg"
      | none => str "arg"

/-- `_parse_parameters(source_code, param_list)`: parameters whose type is not
resolvable (`'unknown'`) are omitted entirely. -/
def parseParameters (pl : Node) : List (Str × Str) :=
  pl.children.foldl (fun ps c =>
    if c.ty ≠ str "parameter_declaration" then ps
    else
      let pType :=
        match findChildByType c [str "primitive_type", str "type_identifier",
            str "qualified_identifier", str "template_type"] with
        | some tn => normalizeType tn
        | none => str "unknown"
      if pType ≠ str "unknown" then ps ++ [(pType, paramName c)] else ps) []

/-- `skip_types` of the `is_inline` branch of `_parse_method`. -/
def skipTypesInline : List Str :=
  [str "function_declarator", str "compound_statement", str "type_qualifier"]

/-- `skip_types` of the field-declaration branch of `_parse_method`. -/
def skipTypesDecl : List Str :=
  [str "attribute_declaration", str "field_identifier", str "function_declarator", str ";"]

/-- `_parse_method(source_code, node, func_declarator, class_name, is_inline)`
from `parser.py`; `none` models the `return None` for skipped nodes
(missing name/parameter list, destructors, operators). -/
def parseMethod (n fd : Node) (className : Str) (isInline : Bool) : Option MethodInfo :=
  match findChildByType fd (if isInline then [str "field_identifier", str "identifier"]
      else [str "field_identifier"]),
    findChildByType fd [str "parameter_list"] with
  | some mn, some ps =>
    if (str "~").isPrefixOf mn.text ∨ (str "operator").isPrefixOf mn.text then none
    else
      some
        { name := mn.text
          return_type :=
            if mn.text = className then []
            else
              match n.children.find?
                  (fun c => !((if isInline then skipTypesInline else skipTypesDecl).contains c.ty)) with
              | some rtn => normalizeType rtn
              | none => str "void"
          parameters := parseParameters ps
          is_async :=
            if isInline then false
            else n.children.any (fun c =>
              if c.ty = str "attribute_declaration" then hasSubstr c.text (str "async") else false) }
  | _, _ => none

/-- The enum-header scan of `process_field`: the
`for child in node.children` loop collecting `is_enum_class`, `enum_name`
(last `type_identifier` wins) and `enumerator_list` (last wins). -/
def enumScan (cs : List Node) : Bool × Option Str × Option Node :=
  cs.foldl (fun p c =>
    if c.text = str "class" then (true, p.2.1, p.2.2)
    else if c.ty = str "type_identifier" then (p.1, some c.text, p.2.2)
    else if c.ty = str "enumerator_list" then (p.1, p.2.1, some c)
    else p) (false, none, none)

/-- Enumerator-name extraction of `process_field`: identifiers of
`enumerator` children, in order. -/
def enumValuesOf (el : Node) : List Str :=
  el.children.foldl (fun vs c =>
    if c.ty = str "enumerator" then
      match findChildByType c [str "identifier"] with
      | some idn => vs ++ [idn.text]
      | none => vs
    else vs) []

/-- The constant scan of `process_field`: the `for child in node.children`
loop collecting `has_const`, `is_static` and `actual_type_node` (last
accepted type shape wins). -/
def constScan (cs : List Node) : Bool × Bool × Option Node :=
  cs.foldl (fun p c =>
    if c.text = str "const" ∨ c.text = str "constexpr" then (true, p.2.1, p.2.2)
    else if c.ty = str "type_qualifier" ∧
        (hasSubstr c.text (str "const") ∨ hasSubstr c.text (str "constexpr")) then
      (true, p.2.1, p.2.2)
    else if c.text = str "static" then (p.1, true, p.2.2)
    else if c.ty = str "primitive_type" ∨ c.ty = str "type_identifier" ∨
        c.ty = str "qualified_identifier" ∨ c.ty = str "sized_type_specifier" then
      (p.1, p.2.1, some c)
    else p) (false, false, none)

/-- The constant branch at the end of `process_field` (reached with
`declarator_node` present): records a ConstInfo when a const/constexpr
qualifier and an accepted type shape were found. -/
def processConst (n dn : Node) (ci : ClassInfo) : ClassInfo :=
  match constScan n.children with
  | (hasConst, isStatic, typeNode?) =>
    match typeNode? with
    | some tn =>
      if hasConst then
        { ci with constants := ci.constants ++ [⟨dn.text, normalizeType tn, isStatic⟩] }
      else ci
    | none => ci

/-- The property/event/constant tail of `process_field` (reached for a
`field_declaration` without `function_declarator`). -/
def processPlainField (n : Node) (ci : ClassInfo) : ClassInfo :=
  match findChildByType n [str "template_type"], findChildByType n [str "field_identifier"] with
  | some tn, some dn =>
    match extractTemplateInfo tn with
    | (tmplName?, tmplArgs?) =>
      if tmplName? = some (str "Property") ∨ tmplName? = some (str "property") then
        let propType :=
          match tmplArgs? with
          | some ta =>
            match findChildByType ta [str "type_descriptor"] with
            | some td => normalizeType td
            | none => str "unknown"
          | none => str "unknown"
        { ci with properties := ci.properties ++ [⟨dn.text, propType⟩] }
      else if tmplName? = some (str "Event") ∨ tmplName? = some (str "event") then
        let argTypes :=
          match tmplArgs? with
          | some ta =>
            ta.children.foldl (fun ats c =>
              if c.ty = str "type_descriptor" then ats ++ [normalizeType c] else ats) []
          | none => []
        { ci with events := ci.events ++ [⟨dn.text, argTypes⟩] }
      else processConst n dn ci
  | none, some dn => processConst n dn ci
  | _, none => ci

/-- `process_field(node, access)` from `_extract_all_members`; the mutated
`class_info` is threaded explicitly (its `name` is the class name used by the
source closure). -/
def processField (n : Node) (access : Str) (ci : ClassInfo) : ClassInfo :=
  if ¬ (n.ty = str "field_declaration" ∨ n.ty = str "function_definition" ∨
      n.ty = str "enum_specifier") then ci
  else if access ≠ str "public" then ci
  else if n.ty = str "enum_specifier" then
    match enumScan n.children with
    | (isEnumClass, enumName?, enumList?) =>
      let vals :=
        match enumList? with
        | some el => enumValuesOf el
        | none => []
      { ci with enums := ci.enums ++ [⟨enumName?.getD (str "<anonymous>"), vals, isEnumClass⟩] }
  else if n.ty = str "function_definition" then
    match findChildByType n [str "function_declarator"] with
    | none => ci
    | some fd =>
      match parseMethod n fd ci.name true with
      | none => ci
      | some m =>
        if m.name = ci.name then { ci with constructors := ci.constructors ++ [m] }
        else { ci with sync_methods := ci.sync_methods ++ [m] }
  else
    match findChildByType n [str "function_declarator"] with
    | some fd =>
      match parseMethod n fd ci.name false with
      | none => ci
      | some m =>
        if m.name = ci.name then { ci with constructors := ci.constructors ++ [m] }
        else if m.is_async then { ci with async_methods := ci.async_methods ++ [m] }
        else { ci with sync_methods := ci.sync_methods ++ [m] }
    | none => processPlainField n ci

/-- The access-specifier update of `walk`: the
`for access in ('public', 'private', 'protected')` substring scan. -/
def updateAccess (txt cur : Str) : Str :=
  if hasSubstr txt (str "public") then str "public"
  else if hasSubstr txt (str "private") then str "private"
  else if hasSubstr txt (str "protected") then str "protected"
  else cur

/-- One visit of `walk` on a node (before recursing into its children):
either update `current_access` or run `process_field`. -/
def walkStep (n : Node) (st : Str × ClassInfo) : Str × ClassInfo :=
  if n.ty = str "access_specifier" then (updateAccess n.text st.1, st.2)
  else (st.1, processField n st.1 st.2)

mutual

def walk : Node → Str × ClassInfo → Str × ClassInfo
  | .mk ty tx cs, st => walkList cs (walkStep (.mk ty tx cs) st)

def walkList : List Node → Str × ClassInfo → Str × ClassInfo
  | [], st => st
  | c :: rest, st => walkList rest (walk c st)

end

/-- `_extract_all_members(source_code, class_body, class_info)`:
depth-first traversal with `current_access` initialized to `'private'`. -/
def extractAllMembers (body : Node) (ci : ClassInfo) : ClassInfo :=
  (walk body (str "private", ci)).2

-- ==========================================================================
-- tools/parser.py — class locator
-- ==========================================================================

/-- The `for child in node.children` scan of `_parse_class` collecting
`class_name` (last `type_identifier` wins) and `class_body` (last
`field_declaration_list` wins). -/
def classNameAndBody (cs : List Node) : Option Str × Option Node :=
  cs.foldl (fun p c =>
    if c.ty = str "type_identifier" then (some c.text, p.2)
    else if c.ty = str "field_declaration_list" then (p.1, some c)
    else p) (none, none)

/-- `_parse_class(source_code, node, target_class_name, namespace)` from
`parser.py`, including the synthesized default constructor. -/
def parseClass (n : Node) (target : Str) (ns : List Str) : Option ClassInfo :=
  match classNameAndBody n.children with
  | (some className, some body) =>
    if className ≠ target then none
    else
      if (extractAllMembers body (mkClassInfo className ns)).constructors = [] then
        some { extractAllMembers body (mkClassInfo className ns) with
               constructors := [defaultCtor className] }
      else some (extractAllMembers body (mkClassInfo className ns))
  | _ => none

/-- The `for child in node.children` scan of `_find_class` collecting
`ns_name` (last `namespace_identifier` wins) and `ns_body` (last
`declaration_list` wins). -/
def nsNameAndBody (cs : List Node) : Option Str × Option Node :=
  cs.foldl (fun p c =>
    if c.ty = str "namespace_identifier" then (some c.text, p.2)
    else if c.ty = str "declaration_list" then (p.1, some c)
    else p) (none, none)

-- `_find_class(source_code, node, target_class_name, namespace)`.  The
-- recursion into a namespace body is not structural (the body is looked up
-- among the children), so the embedding carries fuel; each call and each
-- list step consume one unit, and `nodeSize` fuel is proved sufficient
-- (`findClassFuel_stable`).  `none` is the source's `None` ("not found").
mutual

def findClassFuel : Nat → Node → Str → List Str → Option ClassInfo
  | 0, _, _, _ => none
  | fuel + 1, n, target, ns =>
    match (if n.ty = str "class_specifier" then parseClass n target ns else none) with
    | some ci => some ci
    | none =>
      if n.ty = str "namespace_definition" then
        match nsNameAndBody n.children with
        | (some nsName, some nsBody) => findClassListFuel fuel nsBody.children target (ns ++ [nsName])
        | _ => findClassListFuel fuel n.children target ns
      else findClassListFuel fuel n.children target ns

def findClassListFuel : Nat → List Node → Str → List Str → Option ClassInfo
  | 0, _, _, _ => none
  | _ + 1, [], _, _ => none
  | fuel + 1, c :: rest, target, ns =>
    match findClassFuel fuel c target ns with
    | some ci => some ci
    | none => findClassListFuel fuel rest target ns

end

/-- `_find_class` with its fuel instantiated to the (always sufficient)
tree size. -/
def findClass (n : Node) (target : Str) (ns : List Str) : Option ClassInfo :=
  findClassFuel (nodeSize n) n target ns

/-- `parse_header(header_path, class_name)` after the external parser has
produced the tree: `_find_class(source_code, tree.root_node, class_name)`
with the default `namespace=None ⇒ []`. -/
def parseHeaderTree (root : Node) (className : Str) : Option ClassInfo :=
  findClass root className []

-- ==========================================================================
-- Specification-level reformulations and concrete scenario trees
-- ==========================================================================

/-- Children of a composite node that `_normalize_type` actually renders: the
skip set (`comment`, `initializer_list`, `argument_list`) is removed and
traversal halts at the first non-skipped child whose text is `{`. -/
def keptChildren : List Node → List Node
  | [] => []
  | c :: rest =>
    if c.ty = str "comment" ∨ c.ty = str "initializer_list" ∨ c.ty = str "argument_list" then
      keptChildren rest
    else if c.text = str "\x7b" then []
    else c :: keptChildren rest

/-- The non-empty rendered texts of the kept children, in order. -/
def fragmentsOf (cs : List Node) : List Str :=
  ((keptChildren cs).map normalizeType).filter (fun t => !t.isEmpty)

/-- Join of the fragments after the first one: exactly one space before a
fragment precisely when the previous fragment ends (`prev`) and this one
begins with an alphanumeric character. -/
def specJoinTail (prev : Bool) : List Str → Str
  | [] => []
  | f :: fs => (if prev ∧ headIsAlnum f then [' '] else []) ++ f ++ specJoinTail (lastIsAlnum f) fs

/-- Declarative rendering of a composite node per the specification:
concatenate the fragments in order with the alphanumeric-boundary space
rule. -/
def specJoin : List Str → Str
  | [] => []
  | f :: fs => f ++ specJoinTail (lastIsAlnum f) fs

/-- Template-nesting depth change of a string: opening angles minus closing
angles (an integer: it may go negative on unbalanced input). -/
def angleDepth (u : Str) : Int := (u.count '<' : Int) - (u.count '>' : Int)

-- Depth-first preorder of a tree, the visit order of `walk`.
mutual

def preorder : Node → List Node
  | .mk ty tx cs => .mk ty tx cs :: preorderList cs

def preorderList : List Node → List Node
  | [] => []
  | c :: rest => preorder c ++ preorderList rest

end

/-- Shape of every value `cpp_to_ts_type` can return: a scalar mapping, an
array-of type, a string-keyed mapping-of type, or the `unknown` sentinel. -/
def tsShape (r : Str) : Prop :=
  r = str "boolean" ∨ r = str "number" ∨ r = str "string" ∨ r = str "null" ∨
  (∃ p, r = p ++ str "[]") ∨ (∃ v, r = str "Record<string, " ++ v ++ str ">") ∨
  r = str "unknown"

/-- Leaf node shorthand for the scenario trees. -/
def leaf (ty tx : String) : Node := Node.mk (str ty) (str tx) []

/-- A public wrapped-property member `Property<int> nm;` as tree-sitter
shapes it. -/
def propNode (nm : String) : Node :=
  Node.mk (str "field_declaration") (str "") [
    Node.mk (str "template_type") (str "") [
      leaf "type_identifier" "Property",
      Node.mk (str "template_argument_list") (str "") [
        leaf "pn" "<", leaf "type_descriptor" "int", leaf "pn" ">"]],
    leaf "field_identifier" nm,
    leaf ";" ";"]

/-- An out-of-line declaration `void doSomething(int x);`. -/
def methNode : Node :=
  Node.mk (str "field_declaration") (str "") [
    leaf "primitive_type" "void",
    Node.mk (str "function_declarator") (str "") [
      leaf "field_identifier" "doSomething",
      Node.mk (str "parameter_list") (str "()") [
        leaf "pn" "(",
        Node.mk (str "parameter_declaration") (str "") [
          leaf "primitive_type" "int", leaf "identifier" "x"],
        leaf "pn" ")"]],
    leaf ";" ";"]

/-- The function declarator `fetchData()`. -/
def fetchFd : Node :=
  Node.mk (str "function_declarator") (str "") [
    leaf "field_identifier" "fetchData",
    Node.mk (str "parameter_list") (str "()") [leaf "pn" "(", leaf "pn" ")"]]

/-- An out-of-line declaration `[[webbridge::async]] void fetchData();`. -/
def asyncMethNode : Node :=
  Node.mk (str "field_declaration") (str "") [
    Node.mk (str "attribute_declaration") (str "[[webbridge::async]]") [],
    leaf "primitive_type" "void",
    fetchFd,
    leaf ";" ";"]

/-- An out-of-line declaration `fetchData();` whose children are all in the
skip set of `_parse_method` (no explicit return type anywhere). -/
def voidMethNode : Node :=
  Node.mk (str "field_declaration") (str "") [fetchFd, leaf ";" ";"]

/-- An inline-bodied method `void fetchData() { ... }` carrying the same
attribute marker text among its children (tree-sitter would not attach one
here, but even with it present the inline path ignores markers). -/
def inlineMethNode : Node :=
  Node.mk (str "function_definition") (str "") [
    Node.mk (str "attribute_declaration") (str "[[webbridge::async]]") [],
    leaf "primitive_type" "void",
    fetchFd,
    Node.mk (str "compound_statement") (str "{}") []]

/-- The MethodInfo `_parse_method` produces for `inlineMethNode` (inline,
hence never async). -/
def inlineParsed : MethodInfo := ⟨str "fetchData", str "[[webbridge::async]]", [], false⟩

/-- The MethodInfo `_parse_method` produces for `voidMethNode`: with no child
left after skipping, the return type defaults to `void`. -/
def voidParsed : MethodInfo := ⟨str "fetchData", str "void", [], false⟩

/-- Class body exercising access-specifier orderings: public, then private,
then public again. -/
def scenarioBody : Node :=
  Node.mk (str "field_declaration_list") (str "") [
    leaf "pn" "\x7b",
    Node.mk (str "access_specifier") (str "public:") [],
    propNode "p1",
    Node.mk (str "access_specifier") (str "private:") [],
    propNode "p2",
    Node.mk (str "access_specifier") (str "public:") [],
    propNode "p3",
    methNode,
    asyncMethNode,
    inlineMethNode,
    leaf "pn" "\x7d"]

/-- A `class Scen { ... }` specifier around `scenarioBody`. -/
def scenarioClassNode : Node :=
  Node.mk (str "class_specifier") (str "") [
    leaf "kw" "class",
    leaf "type_identifier" "Scen",
    scenarioBody]

/-- `class Deep {};` — an empty class with no declared constructor. -/
def emptyClassNode (nm : String) : Node :=
  Node.mk (str "class_specifier") (str "") [
    leaf "kw" "class",
    leaf "type_identifier" nm,
    Node.mk (str "field_declaration_list") (str "") [leaf "pn" "\x7b", leaf "pn" "\x7d"]]

/-- `struct Deep {};` — the same declaration as `emptyClassNode` except that
tree-sitter tags a struct as `struct_specifier`, not `class_specifier`. -/
def structNode (nm : String) : Node :=
  Node.mk (str "struct_specifier") (str "") [
    leaf "kw" "struct",
    leaf "type_identifier" nm,
    Node.mk (str "field_declaration_list") (str "") [leaf "pn" "\x7b", leaf "pn" "\x7d"]]

/-- `namespace n1 { namespace n2 { namespace n3 { class Deep {}; } } }`. -/
def deepNsTree : Node :=
  Node.mk (str "translation_unit") (str "") [
    Node.mk (str "namespace_definition") (str "") [
      leaf "kw" "namespace",
      leaf "namespace_identifier" "n1",
      Node.mk (str "declaration_list") (str "") [
        Node.mk (str "namespace_definition") (str "") [
          leaf "kw" "namespace",
          leaf "namespace_identifier" "n2",
          Node.mk (str "declaration_list") (str "") [
            Node.mk (str "namespace_definition") (str "") [
              leaf "kw" "namespace",
              leaf "namespace_identifier" "n3",
              Node.mk (str "declaration_list") (str "") [emptyClassNode "Deep"]]]]]]]

/-- `class Wrapper { class Inner {}; };` — the outer name mismatches the
request, the match sits deeper inside the mismatched subtree. -/
def wrapperTree : Node :=
  Node.mk (str "translation_unit") (str "") [
    Node.mk (str "class_specifier") (str "") [
      leaf "kw" "class",
      leaf "type_identifier" "Wrapper",
      Node.mk (str "field_declaration_list") (str "") [
        leaf "pn" "\x7b",
        emptyClassNode "Inner",
        leaf "pn" "\x7d"]]]

/-- Members extracted from `scenarioBody`: only the public declarations; the
inline-bodied `fetchData` is synchronous (its attribute text even lands as
its rendered return type, since `attribute_declaration` is not in the inline
skip list), while the out-of-line `fetchData` is asynchronous. -/
def scenarioExpected : ClassInfo :=
  { mkClassInfo (str "Scen") [] with
    properties := [⟨str "p1", str "int"⟩, ⟨str "p3", str "int"⟩],
    sync_methods := [⟨str "doSomething", str "void", [(str "int", str "x")], false⟩,
                     ⟨str "fetchData", str "[[webbridge::async]]", [], false⟩],
    async_methods := [⟨str "fetchData", str "void", [], true⟩] }

/-- Descriptor located for `Deep` in `deepNsTree`. -/
def deepExpected : ClassInfo :=
  { mkClassInfo (str "Deep") [str "n1", str "n2", str "n3"] with
    constructors := [defaultCtor (str "Deep")] }

/-- Descriptor located for `Inner` in `wrapperTree`. -/
def innerExpected : ClassInfo :=
  { mkClassInfo (str "Inner") [] with constructors := [defaultCtor (str "Inner")] }

-- ==========================================================================
-- Burn tests of the type mapper (the table of test_tstypes.py, plus the
-- raising inputs)
-- ==========================================================================

example : cpp_to_ts_type (str "int") = some (str "number") := by decide
example : cpp_to_ts_type (str "double") = some (str "number") := by decide
example : cpp_to_ts_type (str "bool") = some (str "boolean") := by decide
example : cpp_to_ts_type (str "std::string") = some (str "string") := by decide
example : cpp_to_ts_type (str "std::vector<int>") = some (str "number[]") := by decide
example : cpp_to_ts_type (str "std::vector<std::string>") = some (str "string[]") := by decide
example : cpp_to_ts_type (str "std::array<double, 5>") = some (str "number[]") := by decide
example : cpp_to_ts_type (str "std::map<std::string, int>") = some (str "Record<string, number>") := by decide
example : cpp_to_ts_type (str "std::unordered_map<std::string, bool>") = some (str "Record<string, boolean>") := by decide
example : cpp_to_ts_type (str "std::vector<std::vector<int>>") = some (str "number[][]") := by decide
example : cpp_to_ts_type (str "std::map<std::string, std::vector<double>>") = some (str "Record<string, number[]>") := by decide
example : cpp_to_ts_type (str "std::map<int, int>") = some (str "unknown") := by decide
example : cpp_to_ts_type (str "std::pair<int, int>") = some (str "unknown") := by decide
example : cpp_to_ts_type (str "const std::vector<int>&") = some (str "number[]") := by decide
example : cpp_to_ts_type (str "unsigned long long") = some (str "number") := by decide
example : cpp_to_ts_type (str "nullptr_t") = some (str "null") := by decide
example : cpp_to_ts_type (str "std::vector<int") = none := by decide
example : cpp_to_ts_type (str "std::map<int") = none := by decide
example : cpp_to_ts_type (str "std::array<std::array<int,2>,3>") = none := by decide

-- ==========================================================================
-- Length facts and fuel sufficiency for the type mapper
-- ==========================================================================

theorem dropWhile_length_le (p : Char → Bool) : ∀ l : Str, (l.dropWhile p).length ≤ l.length := by
  intro l
  induction l with
  | nil => simp
  | cons c cs ih =>
    rw [List.dropWhile_cons]
    split
    · exact le_trans ih (by simp)
    · simp

theorem pyStrip_length_le (l : Str) : (pyStrip l).length ≤ l.length := by
  unfold pyStrip
  simp only [List.length_reverse]
  refine le_trans (dropWhile_length_le _ _) ?_
  simpa using dropWhile_length_le isPySpace l

theorem replaceAllFuel_nil_length_le (pat : Str) (f : Nat) :
    ∀ s : Str, (replaceAllFuel pat [] f s).length ≤ s.length := by
  induction f with
  | zero => intro s; simp [replaceAllFuel]
  | succ f ih =>
    intro s
    match s with
    | [] => simp [replaceAllFuel]
    | c :: rest =>
      simp only [replaceAllFuel]
      split
      · refine le_trans (by simpa using ih ((c :: rest).drop pat.length)) ?_
        simp [List.length_drop]
      · simpa using ih rest

theorem replaceAll_nil_length_le (s pat : Str) : (replaceAll s pat []).length ≤ s.length :=
  replaceAllFuel_nil_length_le pat s.length s

theorem stripAll_length_le (l : Str) : (stripAll l).length ≤ l.length := by
  unfold stripAll
  refine le_trans (pyStrip_length_le _) (le_trans (replaceAll_nil_length_le _ _) ?_)
  refine le_trans (replaceAll_nil_length_le _ _) ?_
  exact le_trans (replaceAll_nil_length_le _ _) (pyStrip_length_le l)

theorem listSlice_length_le (l : Str) (a b : Nat) : (listSlice l a b).length ≤ l.length - a := by
  simp only [listSlice, List.length_take, List.length_drop]
  omega

theorem idxOfChar_some_ne_nil {l : Str} {ch : Char} {i : Nat}
    (h : idxOfChar l ch = some i) : l ≠ [] := by
  intro hl; subst hl; simp [idxOfChar] at h

theorem seqInner_length_lt (nm t : Str) (li ri : Nat) (ht : t ≠ []) :
    (seqInner nm t li ri).length < t.length := by
  have h1 : (pyStrip (listSlice t (li + 1) ri)).length ≤ t.length - (li + 1) :=
    le_trans (pyStrip_length_le _) (listSlice_length_le t (li + 1) ri)
  have ht1 : 1 ≤ t.length := by
    cases t with
    | nil => exact absurd rfl ht
    | cons c cs => simp
  have hlt : (pyStrip (listSlice t (li + 1) ri)).length < t.length := by omega
  have htake : ∀ ci : Nat,
      (pyStrip ((pyStrip (listSlice t (li + 1) ri)).take ci)).length < t.length := by
    intro ci
    refine lt_of_le_of_lt (le_trans (pyStrip_length_le _) ?_) hlt
    simp [List.length_take]
  unfold seqInner
  split
  · split
    · apply htake
    · exact hlt
  · exact hlt

theorem assocValue_length_lt (t : Str) (li ri cp : Nat) (ht : t ≠ []) :
    (assocValue (assocTypes t li ri) cp).length < t.length := by
  have h1 : (assocTypes t li ri).length ≤ t.length - (li + 1) :=
    le_trans (pyStrip_length_le _) (listSlice_length_le t (li + 1) ri)
  have ht1 : 1 ≤ t.length := by
    cases t with
    | nil => exact absurd rfl ht
    | cons c cs => simp
  have h2 : (assocValue (assocTypes t li ri) cp).length ≤ (assocTypes t li ri).length := by
    unfold assocValue
    exact le_trans (pyStrip_length_le _) (by simp [List.length_drop])
  omega

theorem seqStep_congr {r₁ r₂ : Str → Option Str} (nm t : Str)
    (h : ∀ x : Str, x.length < t.length → r₁ x = r₂ x) :
    seqStep r₁ nm t = seqStep r₂ nm t := by
  cases h1 : idxOfChar t '<' with
  | none => simp [seqStep, h1]
  | some li =>
    cases h2 : ridxOfChar t '>' with
    | none => simp [seqStep, h1, h2]
    | some ri =>
      simp only [seqStep, h1, h2]
      rw [h _ (seqInner_length_lt nm t li ri (idxOfChar_some_ne_nil h1))]

theorem assocStep_congr {r₁ r₂ : Str → Option Str} (t : Str)
    (h : ∀ x : Str, x.length < t.length → r₁ x = r₂ x) :
    assocStep r₁ t = assocStep r₂ t := by
  cases h1 : idxOfChar t '<' with
  | none => simp [assocStep, h1]
  | some li =>
    cases h2 : ridxOfChar t '>' with
    | none => simp [assocStep, h1, h2]
    | some ri =>
      cases h3 : findTopComma (assocTypes t li ri) with
      | none => simp [assocStep, h1, h2, h3]
      | some cp =>
        simp only [assocStep, h1, h2, h3]
        split
        · rw [h _ (assocValue_length_lt t li ri cp (idxOfChar_some_ne_nil h1))]
        · rfl

theorem cppToTsFuel_stable (k : Nat) :
    ∀ (l : Str) (n : Nat), l.length ≤ k → l.length ≤ n →
      cppToTsFuel (k + 1) l = cppToTsFuel (n + 1) l := by
  induction k using Nat.strong_induction_on with
  | _ k ih =>
    intro l n hk hn
    have htle : (stripAll l).length ≤ l.length := stripAll_length_le l
    simp only [cppToTsFuel]
    cases htab : tableLookup (stripAll l) SCALAR_MAP with
    | some v => simp [htab]
    | none =>
      simp only [htab]
      have hrec : ∀ x : Str, x.length < (stripAll l).length →
          cppToTsFuel k x = cppToTsFuel n x := by
        intro x hx
        have hxk : x.length < k + 1 := by omega
        have hxn : x.length < n + 1 := by omega
        obtain ⟨k', rfl⟩ : ∃ k', k = k' + 1 := ⟨k - 1, by omega⟩
        obtain ⟨n', rfl⟩ : ∃ n', n = n' + 1 := ⟨n - 1, by omega⟩
        exact ih k' (by omega) x n' (by omega) (by omega)
      cases hseq : SEQ_NAMES.find? (fun nm => List.isPrefixOf (nm ++ ['<']) (stripAll l)) with
      | some nm =>
        simp only [hseq]
        exact seqStep_congr nm (stripAll l) hrec
      | none =>
        simp only [hseq]
        cases hassoc : ASSOC_NAMES.find? (fun nm => List.isPrefixOf (nm ++ ['<']) (stripAll l)) with
        | some nm =>
          simp only [hassoc]
          exact assocStep_congr (stripAll l) hrec
        | none => simp [hassoc]

/-- Fuel sufficiency: any fuel above the string length computes the same
result as `cpp_to_ts_type`; the recursion of the source terminates. -/
theorem cppToTsFuel_fuel_eq (l : Str) (n : Nat) (h : l.length < n) :
    cppToTsFuel n l = cpp_to_ts_type l := by
  obtain ⟨n', rfl⟩ : ∃ n', n = n' + 1 := ⟨n - 1, by omega⟩
  exact cppToTsFuel_stable n' l l.length (by omega) (le_refl _)

-- ==========================================================================
-- Facts about the type mapper
-- ==========================================================================

theorem tableLookup_mem {k v : Str} :
    ∀ {tbl : List (Str × Str)}, tableLookup k tbl = some v → (k, v) ∈ tbl := by
  intro tbl
  induction tbl with
  | nil => intro h; simp [tableLookup] at h
  | cons p rest ih =>
    obtain ⟨a, b⟩ := p
    intro h
    by_cases hk : k = a
    · subst hk
      simp only [tableLookup, if_pos rfl] at h
      have hb := Option.some.inj h
      subst hb
      exact List.mem_cons_self _ _
    · simp only [tableLookup, if_neg hk] at h
      exact List.mem_cons_of_mem _ (ih h)

theorem scalar_table_values :
    ∀ p ∈ SCALAR_MAP,
      p.2 = str "boolean" ∨ p.2 = str "number" ∨ p.2 = str "string" ∨ p.2 = str "null" := by
  decide

theorem scalar_table_no_angle : ∀ p ∈ SCALAR_MAP, ¬ '<' ∈ p.1 := by decide

theorem tableLookup_none_of_angle {t : Str} (h : '<' ∈ t) :
    tableLookup t SCALAR_MAP = none := by
  cases htab : tableLookup t SCALAR_MAP with
  | none => rfl
  | some v => exact absurd h (scalar_table_no_angle _ (tableLookup_mem htab))

theorem angle_mem_of_prefixed {a t : Str} (hpre : (a ++ ['<']) <+: t) : '<' ∈ t :=
  hpre.subset (by simp)

theorem seqStep_some_shape {recur : Str → Option Str} {nm t r : Str}
    (h : seqStep recur nm t = some r) : ∃ p, r = p ++ str "[]" := by
  unfold seqStep at h
  split at h
  · rw [Option.map_eq_some'] at h
    obtain ⟨its, _, hr⟩ := h
    exact ⟨its, hr.symm⟩
  · simp at h

theorem assocStep_some_shape {recur : Str → Option Str} {t r : Str}
    (h : assocStep recur t = some r) :
    r = str "unknown" ∨ ∃ v, r = str "Record<string, " ++ v ++ str ">" := by
  unfold assocStep at h
  split at h
  · split at h
    · split at h
      · rw [Option.map_eq_some'] at h
        obtain ⟨v, _, hr⟩ := h
        exact Or.inr ⟨v, hr.symm⟩
      · exact Or.inl (Option.some.inj h).symm
    · exact Or.inl (Option.some.inj h).symm
  · simp at h

theorem tsShape_of_scalar {v : Str}
    (h : v = str "boolean" ∨ v = str "number" ∨ v = str "string" ∨ v = str "null") :
    tsShape v := by
  rcases h with h | h | h | h
  · exact Or.inl h
  · exact Or.inr (Or.inl h)
  · exact Or.inr (Or.inr (Or.inl h))
  · exact Or.inr (Or.inr (Or.inr (Or.inl h)))

theorem tsShape_array {r p : Str} (h : r = p ++ str "[]") : tsShape r :=
  Or.inr (Or.inr (Or.inr (Or.inr (Or.inl ⟨p, h⟩))))

theorem tsShape_record {r v : Str} (h : r = str "Record<string, " ++ v ++ str ">") : tsShape r :=
  Or.inr (Or.inr (Or.inr (Or.inr (Or.inr (Or.inl ⟨v, h⟩)))))

theorem tsShape_unknown {r : Str} (h : r = str "unknown") : tsShape r :=
  Or.inr (Or.inr (Or.inr (Or.inr (Or.inr (Or.inr h)))))

theorem cppToTsFuel_shape :
    ∀ (fuel : Nat) (l r : Str), cppToTsFuel fuel l = some r → tsShape r := by
  intro fuel l r h
  match fuel with
  | 0 => simp [cppToTsFuel] at h
  | fuel + 1 =>
    simp only [cppToTsFuel] at h
    split at h
    · rename_i v hv
      have hvals := scalar_table_values _ (tableLookup_mem hv)
      have hr := Option.some.inj h
      subst hr
      exact tsShape_of_scalar hvals
    · split at h
      · obtain ⟨p, hp⟩ := seqStep_some_shape h
        exact tsShape_array hp
      · split at h
        · rcases assocStep_some_shape h with h1 | ⟨v, hv⟩
          · exact tsShape_unknown h1
          · exact tsShape_record hv
        · exact tsShape_unknown (Option.some.inj h).symm

theorem seq_find_none_of_assoc {t a : Str} (ha : a ∈ ASSOC_NAMES)
    (hpre : (a ++ ['<']) <+: t) :
    SEQ_NAMES.find? (fun nm => List.isPrefixOf (nm ++ ['<']) t) = none := by
  rw [List.find?_eq_none]
  intro x hx hcontra
  have hx' : (x ++ ['<']) <+: t := by
    rwa [List.isPrefixOf_iff_prefix] at hcontra
  have hpairs : ∀ b ∈ ASSOC_NAMES, ∀ y ∈ SEQ_NAMES,
      ¬((y ++ ['<']) <+: (b ++ ['<'])) ∧ ¬((b ++ ['<']) <+: (y ++ ['<'])) := by decide
  rcases List.prefix_or_prefix_of_prefix hx' hpre with hc | hc
  · exact (hpairs a ha x hx).1 hc
  · exact (hpairs a ha x hx).2 hc

theorem seq_find_eq_prefixed {nm t : Str} (hnm : nm ∈ SEQ_NAMES)
    (hpre : (nm ++ ['<']) <+: t) :
    SEQ_NAMES.find? (fun x => List.isPrefixOf (x ++ ['<']) t) = some nm := by
  cases hf : SEQ_NAMES.find? (fun x => List.isPrefixOf (x ++ ['<']) t) with
  | none =>
    rw [List.find?_eq_none] at hf
    exact absurd (by rw [List.isPrefixOf_iff_prefix]; exact hpre) (hf nm hnm)
  | some x =>
    have hx : (x ++ ['<']) <+: t := by
      have := List.find?_some hf
      simpa [List.isPrefixOf_iff_prefix] using this
    have hxmem := List.mem_of_find?_eq_some hf
    have huniq : ∀ y ∈ SEQ_NAMES, ∀ z ∈ SEQ_NAMES,
        ((y ++ ['<']) <+: (z ++ ['<'])) → y = z := by decide
    rcases List.prefix_or_prefix_of_prefix hx hpre with hc | hc
    · rw [huniq x hxmem nm hnm hc]
    · rw [(huniq nm hnm x hxmem hc).symm]

theorem cpp_to_ts_type_seq_unfold {l nm : Str} (hnm : nm ∈ SEQ_NAMES)
    (hpre : (nm ++ ['<']) <+: stripAll l) :
    cpp_to_ts_type l = seqStep (cppToTsFuel l.length) nm (stripAll l) := by
  have h1 : tableLookup (stripAll l) SCALAR_MAP = none :=
    tableLookup_none_of_angle (angle_mem_of_prefixed hpre)
  have h2 : SEQ_NAMES.find? (fun x => List.isPrefixOf (x ++ ['<']) (stripAll l)) = some nm :=
    seq_find_eq_prefixed hnm hpre
  unfold cpp_to_ts_type
  simp only [cppToTsFuel, h1, h2]

theorem cpp_to_ts_type_assoc_unfold {l a : Str} (ha : a ∈ ASSOC_NAMES)
    (hpre : (a ++ ['<']) <+: stripAll l) :
    cpp_to_ts_type l = assocStep (cppToTsFuel l.length) (stripAll l) := by
  have h1 : tableLookup (stripAll l) SCALAR_MAP = none :=
    tableLookup_none_of_angle (angle_mem_of_prefixed hpre)
  have h2 : SEQ_NAMES.find? (fun x => List.isPrefixOf (x ++ ['<']) (stripAll l)) = none :=
    seq_find_none_of_assoc ha hpre
  have h3 : (ASSOC_NAMES.find? (fun x => List.isPrefixOf (x ++ ['<']) (stripAll l))).isSome := by
    rw [List.find?_isSome]
    exact ⟨a, ha, by rw [List.isPrefixOf_iff_prefix]; exact hpre⟩
  obtain ⟨a₀, ha₀⟩ := Option.isSome_iff_exists.mp h3
  unfold cpp_to_ts_type
  simp only [cppToTsFuel, h1, h2, ha₀]

theorem angleDepth_nil : angleDepth [] = 0 := by simp [angleDepth]

theorem angleDepth_lt_cons (u : Str) : angleDepth ('<' :: u) = 1 + angleDepth u := by
  have h1 : (('<' : Char) == '<') = true := by decide
  have h2 : (('<' : Char) == '>') = false := by decide
  simp only [angleDepth, List.count_cons, h1, h2, if_true, if_false]
  push_cast
  ring

theorem angleDepth_gt_cons (u : Str) : angleDepth ('>' :: u) = angleDepth u - 1 := by
  have h1 : (('>' : Char) == '<') = false := by decide
  have h2 : (('>' : Char) == '>') = true := by decide
  simp only [angleDepth, List.count_cons, h1, h2, if_true, if_false]
  push_cast
  ring

theorem angleDepth_other_cons {c : Char} (u : Str) (h1 : ¬ c = '<') (h2 : ¬ c = '>') :
    angleDepth (c :: u) = angleDepth u := by
  have g1 : (c == '<') = false := beq_eq_false_iff_ne.mpr h1
  have g2 : (c == '>') = false := beq_eq_false_iff_ne.mpr h2
  simp only [angleDepth, List.count_cons, g1, g2, if_false]
  push_cast
  ring

theorem findTopCommaAux_decomp :
    ∀ (cs : Str) (d : Int) (i j : Nat), findTopCommaAux cs d i = some j →
      ∃ pre post : Str, cs = pre ++ ',' :: post ∧ i + pre.length = j ∧
        d + angleDepth pre = 0 ∧
        ∀ (pre' post' : Str), cs = pre' ++ ',' :: post' → pre'.length < pre.length →
          d + angleDepth pre' ≠ 0 := by
  intro cs
  induction cs with
  | nil => intro d i j h; simp [findTopCommaAux] at h
  | cons c rest ih =>
    intro d i j h
    simp only [findTopCommaAux] at h
    split_ifs at h with h1 h2 h3
    · subst h1
      obtain ⟨pre, post, hcs, hlen, hdep, hmin⟩ := ih (d + 1) (i + 1) j h
      refine ⟨'<' :: pre, post, by rw [hcs]; rfl, by simp; omega, ?_, ?_⟩
      · rw [angleDepth_lt_cons]; omega
      · intro pre' post' hcs' hlen'
        match pre' with
        | [] =>
          exfalso
          have : '<' = ',' := by simpa using congrArg (fun l => l.headI) hcs'
          exact absurd this (by decide)
        | c' :: pre'' =>
          have hc' : c' = '<' ∧ rest = pre'' ++ ',' :: post' := by
            constructor
            · simpa using congrArg (fun l => l.headI) hcs'.symm
            · simpa using congrArg List.tail hcs'
          obtain ⟨rfl, hrest⟩ := hc'
          rw [angleDepth_lt_cons]
          have := hmin pre'' post' hrest (by simpa using hlen')
          omega
    · subst h2
      obtain ⟨pre, post, hcs, hlen, hdep, hmin⟩ := ih (d - 1) (i + 1) j h
      refine ⟨'>' :: pre, post, by rw [hcs]; rfl, by simp; omega, ?_, ?_⟩
      · rw [angleDepth_gt_cons]; omega
      · intro pre' post' hcs' hlen'
        match pre' with
        | [] =>
          exfalso
          have : '>' = ',' := by simpa using congrArg (fun l => l.headI) hcs'
          exact absurd this (by decide)
        | c' :: pre'' =>
          have hc' : c' = '>' ∧ rest = pre'' ++ ',' :: post' := by
            constructor
            · simpa using congrArg (fun l => l.headI) hcs'.symm
            · simpa using congrArg List.tail hcs'
          obtain ⟨rfl, hrest⟩ := hc'
          rw [angleDepth_gt_cons]
          have := hmin pre'' post' hrest (by simpa using hlen')
          omega
    · obtain ⟨hc, hd⟩ := h3
      subst hc
      have hj := Option.some.inj h
      subst hj
      refine ⟨[], rest, rfl, by simp, by rw [angleDepth_nil]; omega, ?_⟩
      intro pre' post' _ hlen'
      simp at hlen'
    · obtain ⟨pre, post, hcs, hlen, hdep, hmin⟩ := ih d (i + 1) j h
      refine ⟨c :: pre, post, by rw [hcs]; rfl, by simp; omega, ?_, ?_⟩
      · rw [angleDepth_other_cons pre h1 h2]; omega
      · intro pre' post' hcs' hlen'
        match pre' with
        | [] =>
          have hc : c = ',' := by simpa using congrArg (fun l => l.headI) hcs'
          subst hc
          have hd : ¬ d = 0 := fun h0 => h3 ⟨rfl, h0⟩
          rw [angleDepth_nil]
          omega
        | c' :: pre'' =>
          have hc' : c' = c ∧ rest = pre'' ++ ',' :: post' := by
            constructor
            · simpa using congrArg (fun l => l.headI) hcs'.symm
            · simpa using congrArg List.tail hcs'
          obtain ⟨rfl, hrest⟩ := hc'
          rw [angleDepth_other_cons pre'' h1 h2]
          have := hmin pre'' post' hrest (by simpa using hlen')
          omega

theorem findTopComma_decomp {types : Str} {j : Nat} (h : findTopComma types = some j) :
    ∃ pre post : Str, types = pre ++ ',' :: post ∧ pre.length = j ∧ angleDepth pre = 0 ∧
      ∀ (pre' post' : Str), types = pre' ++ ',' :: post' → pre'.length < j →
        angleDepth pre' ≠ 0 := by
  obtain ⟨pre, post, hcs, hlen, hdep, hmin⟩ := findTopCommaAux_decomp types 0 0 j h
  exact ⟨pre, post, hcs, by omega, by omega,
    fun pre' post' hcs' hlen' => by simpa using hmin pre' post' hcs' (by omega)⟩

-- ==========================================================================
-- Claims C1, C6, C7 — the type mapper
-- ==========================================================================

/-- C1, amended.  As stated the claim is false: `cpp_to_ts_type` raises
`ValueError` when the qualifier-stripped input starts with a recognized
container name followed by `<` but contains no closing `>` (see
`C1_counterexample`).  Amended: whenever the mapper returns (does not raise),
the result is a scalar mapping, an array-of type, a string-keyed mapping-of
type, or the sentinel `unknown`; and the mapper never loops forever — its
recursion is on strictly shorter strings, so any fuel above the input length
computes the fixed result. -/
theorem C1_mapper_total_shape :
    (∀ l r : Str, cpp_to_ts_type l = some r → tsShape r) ∧
    (∀ (l : Str) (n : Nat), l.length < n → cppToTsFuel n l = cpp_to_ts_type l) :=
  ⟨fun l r h => cppToTsFuel_shape (l.length + 1) l r h,
   fun l n h => cppToTsFuel_fuel_eq l n h⟩

/-- C1 witness: the theorem applied at concrete inputs. -/
theorem C1_mapper_total_shape_witness :
    tsShape (str "number") ∧
      cppToTsFuel 20 (str "std::vector<int>") = cpp_to_ts_type (str "std::vector<int>") :=
  ⟨C1_mapper_total_shape.1 (str "int") (str "number") (by decide),
   C1_mapper_total_shape.2 (str "std::vector<int>") 20 (by decide)⟩

/-- C1 counterexample: `"std::vector<int"` is prefixed by a recognized
sequence-container name followed by `<`, yet the mapper raises `ValueError`
(`rindex('>')` fails; modelled as `none`) instead of returning a value, so
`cpp_to_ts_type` is not exception-free over all strings. -/
theorem C1_counterexample :
    cpp_to_ts_type (str "std::vector<int") = none ∧
      (str "std::vector" ++ ['<']) <+: stripAll (str "std::vector<int") := by
  exact ⟨by decide, by decide⟩

/-- C6, amended.  As stated the claim is false at `"std::map<int"` (no
closing `>`: the mapper raises instead of producing `unknown`, see
`C6_counterexample`).  Amended with the proviso that a closing `>` is present
(`rindex` succeeds): the two top-level generic arguments are split with
depth-aware comma scanning — the split never lands inside nested `<...>`
(second conjunct: the chosen comma is the first one with equally many `<`
and `>` before it) — a missing top-level comma or a key other than
`std::string` yields `unknown`, and otherwise the mapper recurses on the
value type and wraps it in `Record<string, ...>`. -/
theorem C6_assoc_mapping :
    (∀ (l a : Str), a ∈ ASSOC_NAMES → (a ++ ['<']) <+: stripAll l →
      ∀ li ri : Nat, idxOfChar (stripAll l) '<' = some li →
        ridxOfChar (stripAll l) '>' = some ri →
        (findTopComma (assocTypes (stripAll l) li ri) = none →
          cpp_to_ts_type l = some (str "unknown")) ∧
        (∀ cp : Nat, findTopComma (assocTypes (stripAll l) li ri) = some cp →
          assocKey (assocTypes (stripAll l) li ri) cp ≠ str "std::string" →
          cpp_to_ts_type l = some (str "unknown")) ∧
        (∀ cp : Nat, findTopComma (assocTypes (stripAll l) li ri) = some cp →
          assocKey (assocTypes (stripAll l) li ri) cp = str "std::string" →
          cpp_to_ts_type l =
            (cpp_to_ts_type (assocValue (assocTypes (stripAll l) li ri) cp)).map
              (fun vts => str "Record<string, " ++ vts ++ str ">"))) ∧
    (∀ (types : Str) (j : Nat), findTopComma types = some j →
      ∃ pre post : Str, types = pre ++ ',' :: post ∧ pre.length = j ∧ angleDepth pre = 0 ∧
        ∀ (pre' post' : Str), types = pre' ++ ',' :: post' → pre'.length < j →
          angleDepth pre' ≠ 0) ∧
    cpp_to_ts_type (str "std::map<int, int>") = some (str "unknown") ∧
    cpp_to_ts_type (str "std::map<std::string, std::map<std::string, int>>") =
      some (str "Record<string, Record<string, number>>") := by
  refine ⟨?_, fun types j h => findTopComma_decomp h, by decide, by decide⟩
  intro l a ha hpre li ri hli hri
  have hbase := cpp_to_ts_type_assoc_unfold ha hpre
  have hne : stripAll l ≠ [] := idxOfChar_some_ne_nil hli
  refine ⟨?_, ?_, ?_⟩
  · intro hcomma
    rw [hbase]
    simp only [assocStep, hli, hri, hcomma]
  · intro cp hcp hkey
    rw [hbase]
    simp only [assocStep, hli, hri, hcp, if_neg hkey]
  · intro cp hcp hkey
    rw [hbase]
    simp only [assocStep, hli, hri, hcp, if_pos hkey]
    have h1 := assocValue_length_lt (stripAll l) li ri cp hne
    have h2 := stripAll_length_le l
    rw [cppToTsFuel_fuel_eq (assocValue (assocTypes (stripAll l) li ri) cp) l.length
      (by omega)]

/-- C6 witness: the theorem applied at `std::map<std::string, int>`
(`<` at index 8, final `>` at index 25, top-level comma at index 11). -/
theorem C6_assoc_mapping_witness :
    cpp_to_ts_type (str "std::map<std::string, int>") =
      (cpp_to_ts_type (str "int")).map
        (fun vts => str "Record<string, " ++ vts ++ str ">") := by
  have h := (C6_assoc_mapping.1 (str "std::map<std::string, int>") (str "std::map")
    (by decide) (by decide) 8 25 (by decide) (by decide)).2.2 11 (by decide) (by decide)
  rw [h]
  decide

/-- C6 counterexample: `"std::map<int"` is prefixed by a recognized
associative-container name followed by `<`, yet the mapper raises
(`rindex('>')` fails; modelled as `none`) instead of returning `unknown`. -/
theorem C6_counterexample :
    cpp_to_ts_type (str "std::map<int") = none ∧
      (str "std::map" ++ ['<']) <+: stripAll (str "std::map<int") := by
  exact ⟨by decide, by decide⟩

/-- C7, amended.  As stated the claim is false at
`"std::array<std::array<int,2>,3>"` (see `C7_counterexample`): for
`std::array` the source truncates at the first comma anywhere — not the
first top-level comma — so a nested comma corrupts the element type, and a
recognized prefix without a closing `>` raises.  Amended: when the stripped
input has a recognized sequence-container prefix and `rindex('>')` succeeds,
the mapper recurses on the extracted element type (`seqInner`: the text
between the first `<` and the last `>`, for `std::array` truncated at the
first comma anywhere) and suffixes `[]`; nesting works as claimed when the
element type carries no comma. -/
theorem C7_seq_mapping :
    (∀ (l nm : Str), nm ∈ SEQ_NAMES → (nm ++ ['<']) <+: stripAll l →
      ∀ li ri : Nat, idxOfChar (stripAll l) '<' = some li →
        ridxOfChar (stripAll l) '>' = some ri →
        cpp_to_ts_type l =
          (cpp_to_ts_type (seqInner nm (stripAll l) li ri)).map
            (fun its => its ++ str "[]")) ∧
    (∀ (nm t : Str) (li ri : Nat), nm ≠ str "std::array" →
      seqInner nm t li ri = pyStrip (listSlice t (li + 1) ri)) ∧
    (∀ (t : Str) (li ri ci : Nat),
      idxOfChar (pyStrip (listSlice t (li + 1) ri)) ',' = some ci →
      seqInner (str "std::array") t li ri =
        pyStrip ((pyStrip (listSlice t (li + 1) ri)).take ci)) ∧
    cpp_to_ts_type (str "std::vector<std::vector<int>>") = some (str "number[][]") ∧
    cpp_to_ts_type (str "std::array<double, 5>") = some (str "number[]") := by
  refine ⟨?_, ?_, ?_, by decide, by decide⟩
  · intro l nm hnm hpre li ri hli hri
    have hbase := cpp_to_ts_type_seq_unfold hnm hpre
    have hne : stripAll l ≠ [] := idxOfChar_some_ne_nil hli
    rw [hbase]
    simp only [seqStep, hli, hri]
    have h1 := seqInner_length_lt nm (stripAll l) li ri hne
    have h2 := stripAll_length_le l
    rw [cppToTsFuel_fuel_eq (seqInner nm (stripAll l) li ri) l.length (by omega)]
  · intro nm t li ri hnm
    unfold seqInner
    rw [if_neg hnm]
  · intro t li ri ci hci
    unfold seqInner
    rw [if_pos rfl, hci]

/-- C7 witness: the theorem applied at `std::vector<int>` (`<` at index 11,
`>` at index 15). -/
theorem C7_seq_mapping_witness :
    cpp_to_ts_type (str "std::vector<int>") =
      (cpp_to_ts_type (str "int")).map (fun its => its ++ str "[]") := by
  have h := C7_seq_mapping.1 (str "std::vector<int>") (str "std::vector")
    (by decide) (by decide) 11 15 (by decide) (by decide)
  rw [h]
  decide

/-- C7 counterexample: for `std::array<std::array<int,2>,3>` the claim's
top-level-comma reading would extract element type `std::array<int,2>`
(which maps to `number[]`, third conjunct) and produce `number[][]`; the
source instead truncates at the first comma anywhere, recurses on
`std::array<int` and raises (`none`). -/
theorem C7_counterexample :
    cpp_to_ts_type (str "std::array<std::array<int,2>,3>") = none ∧
      (str "std::array" ++ ['<']) <+: stripAll (str "std::array<std::array<int,2>,3>") ∧
      cpp_to_ts_type (str "std::array<int,2>") = some (str "number[]") := by
  exact ⟨by decide, by decide, by decide⟩

-- ==========================================================================
-- Facts about the member classifier and class locator
-- ==========================================================================

mutual

theorem walk_eq_foldl : ∀ (n : Node) (st : Str × ClassInfo),
    walk n st = (preorder n).foldl (fun s m => walkStep m s) st
  | .mk ty tx cs, st => by
    show walkList cs (walkStep (.mk ty tx cs) st) = _
    rw [show preorder (.mk ty tx cs) = .mk ty tx cs :: preorderList cs from rfl]
    rw [List.foldl_cons]
    exact walkList_eq_foldl cs _

theorem walkList_eq_foldl : ∀ (cs : List Node) (st : Str × ClassInfo),
    walkList cs st = (preorderList cs).foldl (fun s m => walkStep m s) st
  | [], _ => rfl
  | c :: rest, st => by
    show walkList rest (walk c st) = (preorderList (c :: rest)).foldl _ st
    rw [show preorderList (c :: rest) = preorder c ++ preorderList rest from rfl]
    rw [List.foldl_append]
    rw [walk_eq_foldl c st]
    exact walkList_eq_foldl rest _

end

theorem processConst_name (n dn : Node) (ci : ClassInfo) :
    (processConst n dn ci).name = ci.name := by
  unfold processConst
  repeat' split
  all_goals rfl

theorem processPlainField_name (n : Node) (ci : ClassInfo) :
    (processPlainField n ci).name = ci.name := by
  unfold processPlainField
  repeat' split
  all_goals first
    | rfl
    | apply processConst_name

theorem processField_name (n : Node) (access : Str) (ci : ClassInfo) :
    (processField n access ci).name = ci.name := by
  unfold processField
  repeat' split
  all_goals first
    | rfl
    | apply processPlainField_name

theorem walkStep_name (m : Node) (st : Str × ClassInfo) :
    ((walkStep m st).2).name = st.2.name := by
  unfold walkStep
  split
  · rfl
  · exact processField_name m st.1 st.2

theorem foldl_walkStep_name : ∀ (ms : List Node) (st : Str × ClassInfo),
    ((ms.foldl (fun s m => walkStep m s) st).2).name = st.2.name := by
  intro ms
  induction ms with
  | nil => intro st; rfl
  | cons m rest ih =>
    intro st
    rw [List.foldl_cons, ih]
    exact walkStep_name m st

theorem extractAllMembers_name (body : Node) (ci : ClassInfo) :
    (extractAllMembers body ci).name = ci.name := by
  unfold extractAllMembers
  rw [walk_eq_foldl]
  exact foldl_walkStep_name _ _

theorem parseClass_name {n : Node} {target : Str} {ns : List Str} {ci : ClassInfo}
    (h : parseClass n target ns = some ci) : ci.name = target := by
  unfold parseClass at h
  split at h
  · rename_i className body heq
    split at h
    · simp at h
    · rename_i hname
      have hname' : className = target := not_not.mp hname
      split at h
      · have hci := (Option.some.inj h).symm
        subst hci
        show (extractAllMembers body (mkClassInfo className ns)).name = target
        rw [extractAllMembers_name]
        exact hname'
      · have hci := (Option.some.inj h).symm
        subst hci
        rw [extractAllMembers_name]
        exact hname'
  · simp at h

mutual

theorem findClassFuel_name :
    ∀ (fuel : Nat) (n : Node) (t : Str) (ns : List Str) (ci : ClassInfo),
      findClassFuel fuel n t ns = some ci → ci.name = t
  | 0, n, t, ns, ci => by
    intro h
    simp [findClassFuel] at h
  | fuel + 1, n, t, ns, ci => by
    intro h
    simp only [findClassFuel] at h
    split at h
    · rename_i ci' hci'
      have hc := Option.some.inj h
      subst hc
      split at hci'
      · exact parseClass_name hci'
      · simp at hci'
    · split at h
      · split at h
        · exact findClassListFuel_name fuel _ t _ ci h
        · exact findClassListFuel_name fuel _ t _ ci h
      · exact findClassListFuel_name fuel _ t _ ci h

theorem findClassListFuel_name :
    ∀ (fuel : Nat) (cs : List Node) (t : Str) (ns : List Str) (ci : ClassInfo),
      findClassListFuel fuel cs t ns = some ci → ci.name = t
  | 0, cs, t, ns, ci => by
    intro h
    simp [findClassListFuel] at h
  | fuel + 1, [], t, ns, ci => by
    intro h
    simp [findClassListFuel] at h
  | fuel + 1, c :: rest, t, ns, ci => by
    intro h
    simp only [findClassListFuel] at h
    split at h
    · rename_i ci' hci'
      have hc := Option.some.inj h
      subst hc
      exact findClassFuel_name fuel c t ns ci' hci'
    · exact findClassListFuel_name fuel rest t ns ci h

end

-- ==========================================================================
-- Claims C2, C3, C4, C5 — the class locator and member classifier
-- ==========================================================================

/-- C2: for every tree and every requested name, `_find_class` (at any fuel,
in particular `parse_header`'s instantiation) returns either a descriptor
whose name equals the requested name, or `None`; never a mismatched name. -/
theorem C2_locate_name_matches :
    (∀ (fuel : Nat) (n : Node) (target : Str) (ns : List Str) (ci : ClassInfo),
      findClassFuel fuel n target ns = some ci → ci.name = target) ∧
    (∀ (root : Node) (className : Str) (ci : ClassInfo),
      parseHeaderTree root className = some ci → ci.name = className) :=
  ⟨findClassFuel_name,
   fun root className ci h => findClassFuel_name (nodeSize root) root className [] ci h⟩

/-- C2 witness: the theorem applied to the deep-namespace scenario tree. -/
theorem C2_locate_name_matches_witness : deepExpected.name = str "Deep" :=
  C2_locate_name_matches.2 deepNsTree (str "Deep") deepExpected (by decide)

/-- C3: only declarations seen under `public` access contribute to any of the
seven collections (`process_field` is the identity under any other access);
the traversal is the preorder fold of `walkStep` starting from access
`private`; every access-specifier node updates the access (by the source's
substring scan, `public`/`private`/`protected` checked in that order) for
everything visited later; and the concrete scenario re-opening `public`
after `private` keeps exactly the public members. -/
theorem C3_public_only :
    (∀ (n : Node) (access : Str) (ci : ClassInfo), access ≠ str "public" →
      processField n access ci = ci) ∧
    (∀ (body : Node) (ci : ClassInfo),
      extractAllMembers body ci =
        ((preorder body).foldl (fun st m => walkStep m st) (str "private", ci)).2) ∧
    (∀ (n : Node) (st : Str × ClassInfo), n.ty = str "access_specifier" →
      walkStep n st = (updateAccess n.text st.1, st.2)) ∧
    extractAllMembers scenarioBody (mkClassInfo (str "Scen") []) = scenarioExpected := by
  refine ⟨?_, ?_, ?_, by decide⟩
  · intro n access ci ha
    unfold processField
    by_cases h1 : ¬ (n.ty = str "field_declaration" ∨ n.ty = str "function_definition" ∨
        n.ty = str "enum_specifier")
    · rw [if_pos h1]
    · rw [if_neg h1, if_pos ha]
  · intro body ci
    unfold extractAllMembers
    rw [walk_eq_foldl]
  · intro n st h
    unfold walkStep
    rw [if_pos h]

/-- C3 witness: the theorem applied at a private-access concrete input. -/
theorem C3_public_only_witness :
    processField (propNode "p2") (str "private") (mkClassInfo (str "Scen") []) =
      mkClassInfo (str "Scen") [] :=
  C3_public_only.1 (propNode "p2") (str "private") (mkClassInfo (str "Scen") []) (by decide)

/-- C4: every descriptor returned by `_parse_class` has a non-empty
constructor collection; when extraction recorded zero constructors, the
result is the extraction output with exactly one synthesized constructor
carrying the class name, an empty return type and no parameters. -/
theorem C4_ctor_nonempty :
    ∀ (n : Node) (target : Str) (ns : List Str) (ci : ClassInfo),
      parseClass n target ns = some ci →
      ci.constructors ≠ [] ∧
      defaultCtor target = ⟨target, [], [], false⟩ ∧
      (∀ body : Node, classNameAndBody n.children = (some target, some body) →
        (extractAllMembers body (mkClassInfo target ns)).constructors = [] →
        ci = { extractAllMembers body (mkClassInfo target ns) with
               constructors := [defaultCtor target] }) := by
  intro n target ns ci h
  unfold parseClass at h
  split at h
  · rename_i className body heq
    split at h
    · simp at h
    · rename_i hname
      have hname' : className = target := not_not.mp hname
      subst hname'
      split at h
      · rename_i hempty
        have hci := (Option.some.inj h).symm
        subst hci
        refine ⟨by simp, rfl, ?_⟩
        intro body' heq'
        rw [heq] at heq'
        have hbody : body = body' := by
          have := congrArg Prod.snd heq'
          simpa using this
        subst hbody
        intro _
        rfl
      · rename_i hne
        have hci := (Option.some.inj h).symm
        subst hci
        refine ⟨hne, rfl, ?_⟩
        intro body' heq' hempty'
        rw [heq] at heq'
        have hbody : body = body' := by
          have := congrArg Prod.snd heq'
          simpa using this
        subst hbody
        exact absurd hempty' hne
  · simp at h

/-- C4 witness: the theorem applied to a class with no declared
constructor. -/
theorem C4_ctor_nonempty_witness :
    innerExpected.constructors ≠ [] ∧
      defaultCtor (str "Inner") = ⟨str "Inner", [], [], false⟩ :=
  ⟨(C4_ctor_nonempty (emptyClassNode "Inner") (str "Inner") [] innerExpected (by decide)).1,
   (C4_ctor_nonempty (emptyClassNode "Inner") (str "Inner") [] innerExpected (by decide)).2.1⟩

/-- C5, amended.  As stated the claim is false: `_find_class` hands only
`class_specifier` nodes to `_parse_class` (parser.py line 423), while
tree-sitter tags a struct declaration `struct_specifier`, so a struct
matching the requested name is never parsed and the search reports NotFound
(see `C5_counterexample`).  Amended to class declarations: when
`_parse_class` rejects a `class_specifier`, the search continues over its
children with the same namespace — a name mismatch does not prune the
subtree (first conjunct, at any fuel, and second conjunct at `findClass`'s
own fuel); a class three namespaces deep is located with namespace path
equal to the three names outer-to-inner; a class nested inside a mismatched
class is still found; and a `struct_specifier` node is never parsed itself —
the search only continues over its children with the same namespace (last
conjunct). -/
theorem C5_locator_nested :
    (∀ (fuel : Nat) (tx : Str) (cs : List Node) (target : Str) (ns : List Str),
      parseClass (Node.mk (str "class_specifier") tx cs) target ns = none →
      findClassFuel (fuel + 1) (Node.mk (str "class_specifier") tx cs) target ns =
        findClassListFuel fuel cs target ns) ∧
    (∀ (tx : Str) (cs : List Node) (target : Str) (ns : List Str),
      parseClass (Node.mk (str "class_specifier") tx cs) target ns = none →
      findClass (Node.mk (str "class_specifier") tx cs) target ns =
        findClassListFuel (nodeListSize cs) cs target ns) ∧
    (findClass deepNsTree (str "Deep") [] = some deepExpected ∧
      deepExpected.namespace_path = [str "n1", str "n2", str "n3"]) ∧
    (findClass wrapperTree (str "Inner") [] = some innerExpected ∧
      innerExpected.name = str "Inner") ∧
    (∀ (fuel : Nat) (tx : Str) (cs : List Node) (target : Str) (ns : List Str),
      findClassFuel (fuel + 1) (Node.mk (str "struct_specifier") tx cs) target ns =
        findClassListFuel fuel cs target ns) := by
  have hstep : ∀ (fuel : Nat) (tx : Str) (cs : List Node) (target : Str) (ns : List Str),
      parseClass (Node.mk (str "class_specifier") tx cs) target ns = none →
      findClassFuel (fuel + 1) (Node.mk (str "class_specifier") tx cs) target ns =
        findClassListFuel fuel cs target ns := by
    intro fuel tx cs target ns h
    have hne : ¬ (str "class_specifier" = str "namespace_definition") := by decide
    simp only [findClassFuel, Node.ty, Node.children, if_true]
    rw [h]
    dsimp only
    rw [if_neg hne]
  refine ⟨hstep, ?_, ⟨by decide, by decide⟩, ⟨by decide, by decide⟩, ?_⟩
  · intro tx cs target ns h
    unfold findClass
    have hs : nodeSize (Node.mk (str "class_specifier") tx cs) = nodeListSize cs + 1 := by
      show 1 + nodeListSize cs = nodeListSize cs + 1
      omega
    rw [hs]
    exact hstep (nodeListSize cs) tx cs target ns h
  · intro fuel tx cs target ns
    have hne1 : ¬ (str "struct_specifier" = str "class_specifier") := by decide
    have hne2 : ¬ (str "struct_specifier" = str "namespace_definition") := by decide
    simp only [findClassFuel, Node.ty, Node.children]
    rw [if_neg hne1]
    dsimp only
    rw [if_neg hne2]

/-- C5 witness: the theorem applied at a concrete mismatched class node. -/
theorem C5_locator_nested_witness :
    findClass (Node.mk (str "class_specifier") (str "") [leaf "type_identifier" "Other"])
        (str "Deep") [] =
      findClassListFuel (nodeListSize [leaf "type_identifier" "Other"])
        [leaf "type_identifier" "Other"] (str "Deep") [] :=
  C5_locator_nested.2.1 (str "") [leaf "type_identifier" "Other"] (str "Deep") [] (by decide)

/-- C5 counterexample: a struct whose declared name equals the requested
name is never located — `findClass` returns `none` on `struct Deep \x7b\x7d;`
while the otherwise identical `class Deep \x7b\x7d;` is found — so `locate`
does not find "class or struct" declarations, classes only. -/
theorem C5_counterexample :
    findClass (Node.mk (str "translation_unit") (str "") [structNode "Deep"])
        (str "Deep") [] = none ∧
      findClass (Node.mk (str "translation_unit") (str "") [emptyClassNode "Deep"])
          (str "Deep") [] =
        some { mkClassInfo (str "Deep") [] with constructors := [defaultCtor (str "Deep")] } := by
  exact ⟨by decide, by decide⟩

-- ==========================================================================
-- Claims C8, C10 — method classification
-- ==========================================================================

/-- C8: a method is classified asynchronous only via an attached
`attribute_declaration` containing `async` on an out-of-line declaration:
inline-bodied methods (`is_inline=True`) are parsed with `is_async=False`
regardless of markers (first conjunct); for out-of-line declarations
`is_async` is exactly the attribute scan (second conjunct);
`function_definition` nodes never touch the async collection (third
conjunct); and an out-of-line non-constructor method whose scan found an
async marker is appended to the async collection (fourth conjunct). -/
theorem C8_async_classification :
    (∀ (n fd : Node) (cn : Str) (m : MethodInfo),
      parseMethod n fd cn true = some m → m.is_async = false) ∧
    (∀ (n fd : Node) (cn : Str) (m : MethodInfo),
      parseMethod n fd cn false = some m →
      m.is_async = n.children.any (fun c =>
        if c.ty = str "attribute_declaration" then hasSubstr c.text (str "async") else false)) ∧
    (∀ (n : Node) (access : Str) (ci : ClassInfo), n.ty = str "function_definition" →
      (processField n access ci).async_methods = ci.async_methods) ∧
    (∀ (n fd : Node) (ci : ClassInfo) (m : MethodInfo), n.ty = str "field_declaration" →
      findChildByType n [str "function_declarator"] = some fd →
      parseMethod n fd ci.name false = some m → m.name ≠ ci.name → m.is_async = true →
      processField n (str "public") ci = { ci with async_methods := ci.async_methods ++ [m] }) := by
  refine ⟨?_, ?_, ?_, ?_⟩
  · intro n fd cn m h
    unfold parseMethod at h
    split at h
    · split at h
      · simp at h
      · have hm := (Option.some.inj h).symm
        subst hm
        rfl
    · simp at h
  · intro n fd cn m h
    unfold parseMethod at h
    split at h
    · split at h
      · simp at h
      · have hm := (Option.some.inj h).symm
        subst hm
        rfl
    · simp at h
  · intro n access ci h
    unfold processField
    have h1 : ¬ ¬ (n.ty = str "field_declaration" ∨ n.ty = str "function_definition" ∨
        n.ty = str "enum_specifier") := not_not_intro (Or.inr (Or.inl h))
    rw [if_neg h1]
    by_cases ha : access ≠ str "public"
    · rw [if_pos ha]
    · rw [if_neg ha]
      have h2 : ¬ (n.ty = str "enum_specifier") := by rw [h]; decide
      rw [if_neg h2]
      rw [if_pos h]
      cases hfd : findChildByType n [str "function_declarator"] with
      | none => rfl
      | some fd =>
        dsimp only
        cases hpm : parseMethod n fd ci.name true with
        | none => rfl
        | some m =>
          dsimp only
          by_cases hn : m.name = ci.name
          · rw [if_pos hn]
          · rw [if_neg hn]
  · intro n fd ci m h hfd hpm hneq hasync
    unfold processField
    have h1 : ¬ ¬ (n.ty = str "field_declaration" ∨ n.ty = str "function_definition" ∨
        n.ty = str "enum_specifier") := not_not_intro (Or.inl h)
    rw [if_neg h1]
    have ha : ¬ (str "public" ≠ str "public") := not_not_intro rfl
    rw [if_neg ha]
    have h2 : ¬ (n.ty = str "enum_specifier") := by rw [h]; decide
    rw [if_neg h2]
    have h3 : ¬ (n.ty = str "function_definition") := by rw [h]; decide
    rw [if_neg h3]
    rw [hfd]
    dsimp only
    rw [hpm]
    dsimp only
    rw [if_neg hneq, if_pos hasync]

/-- C8 witness: the theorem applied to the inline-bodied `fetchData` (sync
despite the marker) and to `processField` on the out-of-line async one. -/
theorem C8_async_classification_witness :
    inlineParsed.is_async = false ∧
      processField asyncMethNode (str "public") (mkClassInfo (str "Scen") []) =
        { mkClassInfo (str "Scen") [] with
          async_methods := [⟨str "fetchData", str "void", [], true⟩] } :=
  ⟨C8_async_classification.1 inlineMethNode fetchFd (str "Scen") inlineParsed (by rfl),
   C8_async_classification.2.2.2 asyncMethNode fetchFd (mkClassInfo (str "Scen") [])
     ⟨str "fetchData", str "void", [], true⟩ (by decide) (by rfl) (by rfl)
     (by decide) (by decide)⟩

/-- C10: for a non-constructor method (inline or out-of-line) whose node has
no child left after the skip set of its branch, the recorded return type is
the string `void`. -/
theorem C10_void_default :
    ∀ (n fd : Node) (cn : Str) (isInline : Bool) (m : MethodInfo),
      parseMethod n fd cn isInline = some m → m.name ≠ cn →
      n.children.find? (fun c =>
        !((if isInline then skipTypesInline else skipTypesDecl).contains c.ty)) = none →
      m.return_type = str "void" := by
  intro n fd cn isInline m h hname hfind
  unfold parseMethod at h
  split at h
  · split at h
    · simp at h
    · have hm := (Option.some.inj h).symm
      subst hm
      dsimp only at hname ⊢
      rw [if_neg hname, hfind]
  · simp at h

/-- C10 witness: the theorem applied to a declaration whose children are all
skipped. -/
theorem C10_void_default_witness : voidParsed.return_type = str "void" :=
  C10_void_default voidMethNode fetchFd (str "Scen") false voidParsed
    (by rfl) (by decide) (by rfl)

-- ==========================================================================
-- Claim C9 — the type renderer
-- ==========================================================================

theorem keptChildren_skip {c : Node} (rest : List Node)
    (h : c.ty = str "comment" ∨ c.ty = str "initializer_list" ∨ c.ty = str "argument_list") :
    keptChildren (c :: rest) = keptChildren rest := by
  simp only [keptChildren]
  rw [if_pos h]

theorem keptChildren_brace {c : Node} (rest : List Node)
    (h1 : ¬ (c.ty = str "comment" ∨ c.ty = str "initializer_list" ∨ c.ty = str "argument_list"))
    (h2 : c.text = str "\x7b") :
    keptChildren (c :: rest) = [] := by
  simp only [keptChildren]
  rw [if_neg h1, if_pos h2]

theorem keptChildren_keep {c : Node} (rest : List Node)
    (h1 : ¬ (c.ty = str "comment" ∨ c.ty = str "initializer_list" ∨ c.ty = str "argument_list"))
    (h2 : ¬ c.text = str "\x7b") :
    keptChildren (c :: rest) = c :: keptChildren rest := by
  simp only [keptChildren]
  rw [if_neg h1, if_neg h2]

theorem fragmentsOf_skip {c : Node} (rest : List Node)
    (h : c.ty = str "comment" ∨ c.ty = str "initializer_list" ∨ c.ty = str "argument_list") :
    fragmentsOf (c :: rest) = fragmentsOf rest := by
  unfold fragmentsOf
  rw [keptChildren_skip rest h]

theorem fragmentsOf_brace {c : Node} (rest : List Node)
    (h1 : ¬ (c.ty = str "comment" ∨ c.ty = str "initializer_list" ∨ c.ty = str "argument_list"))
    (h2 : c.text = str "\x7b") :
    fragmentsOf (c :: rest) = [] := by
  unfold fragmentsOf
  rw [keptChildren_brace rest h1 h2]
  rfl

theorem fragmentsOf_keep_nil {c : Node} (rest : List Node)
    (h1 : ¬ (c.ty = str "comment" ∨ c.ty = str "initializer_list" ∨ c.ty = str "argument_list"))
    (h2 : ¬ c.text = str "\x7b") (ht : normalizeType c = []) :
    fragmentsOf (c :: rest) = fragmentsOf rest := by
  unfold fragmentsOf
  rw [keptChildren_keep rest h1 h2, List.map_cons, List.filter_cons, ht]
  rfl

theorem fragmentsOf_keep_cons {c : Node} (rest : List Node)
    (h1 : ¬ (c.ty = str "comment" ∨ c.ty = str "initializer_list" ∨ c.ty = str "argument_list"))
    (h2 : ¬ c.text = str "\x7b") (ht : normalizeType c ≠ []) :
    fragmentsOf (c :: rest) = normalizeType c :: fragmentsOf rest := by
  unfold fragmentsOf
  rw [keptChildren_keep rest h1 h2, List.map_cons, List.filter_cons]
  have hne : (!(normalizeType c).isEmpty) = true := by
    cases hx : normalizeType c with
    | nil => exact absurd hx ht
    | cons a b => rfl
  rw [hne]
  simp

theorem fragmentsOf_cons_congr (c : Node) {X Y : List Node}
    (h : fragmentsOf X = fragmentsOf Y) :
    fragmentsOf (c :: X) = fragmentsOf (c :: Y) := by
  by_cases hskip : c.ty = str "comment" ∨ c.ty = str "initializer_list" ∨ c.ty = str "argument_list"
  · rw [fragmentsOf_skip X hskip, fragmentsOf_skip Y hskip]
    exact h
  · by_cases hbrace : c.text = str "\x7b"
    · rw [fragmentsOf_brace X hskip hbrace, fragmentsOf_brace Y hskip hbrace]
    · by_cases ht : normalizeType c = []
      · rw [fragmentsOf_keep_nil X hskip hbrace ht, fragmentsOf_keep_nil Y hskip hbrace ht]
        exact h
      · rw [fragmentsOf_keep_cons X hskip hbrace ht, fragmentsOf_keep_cons Y hskip hbrace ht, h]

theorem normalizeTypeGo_acc : ∀ (cs : List Node) (acc : Str) (prev : Bool), acc ≠ [] →
    normalizeTypeGo cs acc prev = acc ++ specJoinTail prev (fragmentsOf cs) := by
  intro cs
  induction cs with
  | nil =>
    intro acc prev _
    show acc = acc ++ specJoinTail prev (fragmentsOf [])
    simp [fragmentsOf, keptChildren, specJoinTail]
  | cons c rest ih =>
    intro acc prev hacc
    by_cases hskip : c.ty = str "comment" ∨ c.ty = str "initializer_list" ∨ c.ty = str "argument_list"
    · rw [show normalizeTypeGo (c :: rest) acc prev = normalizeTypeGo rest acc prev from by
        simp only [normalizeTypeGo]; rw [if_pos hskip]]
      rw [ih acc prev hacc, fragmentsOf_skip rest hskip]
    · by_cases hbrace : c.text = str "\x7b"
      · rw [show normalizeTypeGo (c :: rest) acc prev = acc from by
          simp only [normalizeTypeGo]; rw [if_neg hskip, if_pos hbrace]]
        rw [fragmentsOf_brace rest hskip hbrace]
        simp [specJoinTail]
      · cases ht : normalizeType c with
        | nil =>
          rw [show normalizeTypeGo (c :: rest) acc prev = normalizeTypeGo rest acc prev from by
            simp only [normalizeTypeGo]; rw [if_neg hskip, if_neg hbrace, ht]]
          rw [ih acc prev hacc, fragmentsOf_keep_nil rest hskip hbrace ht]
        | cons t0 tr =>
          rw [show normalizeTypeGo (c :: rest) acc prev =
              normalizeTypeGo rest
                (if acc ≠ [] ∧ prev ∧ headIsAlnum (t0 :: tr) then acc ++ [' '] ++ (t0 :: tr)
                 else acc ++ (t0 :: tr))
                (lastIsAlnum (t0 :: tr)) from by
            simp only [normalizeTypeGo]; rw [if_neg hskip, if_neg hbrace, ht]]
          rw [fragmentsOf_keep_cons rest hskip hbrace (by rw [ht]; exact List.cons_ne_nil t0 tr), ht]
          by_cases hcond : prev ∧ headIsAlnum (t0 :: tr)
          · rw [if_pos ⟨hacc, hcond.1, hcond.2⟩]
            rw [ih (acc ++ [' '] ++ (t0 :: tr)) (lastIsAlnum (t0 :: tr)) (by simp)]
            show _ = acc ++ specJoinTail prev ((t0 :: tr) :: fragmentsOf rest)
            simp only [specJoinTail]
            rw [if_pos hcond]
            simp [List.append_assoc]
          · rw [if_neg (fun hx => hcond ⟨hx.2.1, hx.2.2⟩)]
            rw [ih (acc ++ (t0 :: tr)) (lastIsAlnum (t0 :: tr)) (by simp)]
            show _ = acc ++ specJoinTail prev ((t0 :: tr) :: fragmentsOf rest)
            simp only [specJoinTail]
            rw [if_neg hcond]
            simp [List.append_assoc]

theorem normalizeTypeGo_nil_acc : ∀ (cs : List Node) (prev : Bool),
    normalizeTypeGo cs [] prev = specJoin (fragmentsOf cs) := by
  intro cs
  induction cs with
  | nil => intro prev; rfl
  | cons c rest ih =>
    intro prev
    by_cases hskip : c.ty = str "comment" ∨ c.ty = str "initializer_list" ∨ c.ty = str "argument_list"
    · rw [show normalizeTypeGo (c :: rest) [] prev = normalizeTypeGo rest [] prev from by
        simp only [normalizeTypeGo]; rw [if_pos hskip]]
      rw [ih prev, fragmentsOf_skip rest hskip]
    · by_cases hbrace : c.text = str "\x7b"
      · rw [show normalizeTypeGo (c :: rest) [] prev = [] from by
          simp only [normalizeTypeGo]; rw [if_neg hskip, if_pos hbrace]]
        rw [fragmentsOf_brace rest hskip hbrace]
        rfl
      · cases ht : normalizeType c with
        | nil =>
          rw [show normalizeTypeGo (c :: rest) [] prev = normalizeTypeGo rest [] prev from by
            simp only [normalizeTypeGo]; rw [if_neg hskip, if_neg hbrace, ht]]
          rw [ih prev, fragmentsOf_keep_nil rest hskip hbrace ht]
        | cons t0 tr =>
          rw [show normalizeTypeGo (c :: rest) [] prev =
              normalizeTypeGo rest (t0 :: tr) (lastIsAlnum (t0 :: tr)) from by
            simp only [normalizeTypeGo]
            rw [if_neg hskip, if_neg hbrace, ht]
            rfl]
          rw [normalizeTypeGo_acc rest (t0 :: tr) (lastIsAlnum (t0 :: tr)) (List.cons_ne_nil t0 tr)]
          rw [fragmentsOf_keep_cons rest hskip hbrace (by rw [ht]; exact List.cons_ne_nil t0 tr), ht]
          rfl

/-- C9: `_normalize_type` on a composite, non-comment node equals the
declarative rendering: take the children up to the first `{` child, drop
comment/initializer-list/argument-list children, render each recursively,
drop empty renderings, and join with exactly one space inserted between two
adjacent fragments precisely when the left ends and the right begins with an
alphanumeric character (conjuncts 2 and 3 state the skip and halt facts
directly; conjunct 4 spells out the two-fragment space rule). -/
theorem C9_render_spacing :
    (∀ (ty tx : Str) (cs : List Node), ty ≠ str "comment" → cs ≠ [] →
      normalizeType (Node.mk ty tx cs) = specJoin (fragmentsOf cs)) ∧
    (∀ (pre post : List Node) (sk : Node),
      (sk.ty = str "comment" ∨ sk.ty = str "initializer_list" ∨ sk.ty = str "argument_list") →
      fragmentsOf (pre ++ sk :: post) = fragmentsOf (pre ++ post)) ∧
    (∀ (pre post post' : List Node) (b : Node),
      ¬ (b.ty = str "comment" ∨ b.ty = str "initializer_list" ∨ b.ty = str "argument_list") →
      b.text = str "\x7b" →
      fragmentsOf (pre ++ b :: post) = fragmentsOf (pre ++ b :: post')) ∧
    (∀ f g : Str,
      specJoin [f, g] = f ++ (if lastIsAlnum f ∧ headIsAlnum g then [' '] else []) ++ g) := by
  refine ⟨?_, ?_, ?_, ?_⟩
  · intro ty tx cs hty hcs
    cases cs with
    | nil => exact absurd rfl hcs
    | cons c rest =>
      rw [show normalizeType (Node.mk ty tx (c :: rest)) =
          normalizeTypeGo (c :: rest) [] false from by
        unfold normalizeType; rw [if_neg hty]]
      exact normalizeTypeGo_nil_acc (c :: rest) false
  · intro pre post sk hsk
    induction pre with
    | nil => simpa using fragmentsOf_skip post hsk
    | cons c pre' ih =>
      rw [List.cons_append, List.cons_append]
      exact fragmentsOf_cons_congr c ih
  · intro pre post post' b h1 h2
    induction pre with
    | nil =>
      rw [List.nil_append, List.nil_append, fragmentsOf_brace post h1 h2,
        fragmentsOf_brace post' h1 h2]
    | cons c pre' ih =>
      rw [List.cons_append, List.cons_append]
      exact fragmentsOf_cons_congr c ih
  · intro f g
    simp only [specJoin, specJoinTail]
    simp [List.append_assoc]

/-- C9 witness: the theorem applied at a composite node rendering
`unsigned long` (space inserted) whose fragments confirm the rule. -/
theorem C9_render_spacing_witness :
    normalizeType (Node.mk (str "sized_type_specifier") (str "unsigned long")
        [leaf "kw" "unsigned", leaf "kw" "long"]) =
      specJoin (fragmentsOf [leaf "kw" "unsigned", leaf "kw" "long"]) ∧
    specJoin (fragmentsOf [leaf "kw" "unsigned", leaf "kw" "long"]) = str "unsigned long" :=
  ⟨C9_render_spacing.1 (str "sized_type_specifier") (str "unsigned long")
      [leaf "kw" "unsigned", leaf "kw" "long"] (by decide) (List.cons_ne_nil _ _),
   by decide⟩

-- ==========================================================================
-- Fuel sufficiency for the class locator
-- ==========================================================================

theorem nodeSize_pos (n : Node) : 1 ≤ nodeSize n := by
  cases n with
  | mk ty tx cs => show 1 ≤ 1 + nodeListSize cs; omega

theorem nodeListSize_pos : ∀ cs : List Node, 1 ≤ nodeListSize cs
  | [] => le_refl 1
  | c :: rest => by show 1 ≤ 1 + nodeSize c + nodeListSize rest; omega

theorem nodeSize_children (n : Node) : nodeSize n = 1 + nodeListSize n.children := by
  cases n
  rfl

theorem nodeSize_le_of_mem : ∀ {cs : List Node} {b : Node}, b ∈ cs → nodeSize b ≤ nodeListSize cs := by
  intro cs
  induction cs with
  | nil => intro b h; simp at h
  | cons c rest ih =>
    intro b h
    rcases List.mem_cons.mp h with rfl | h'
    · show nodeSize b ≤ 1 + nodeSize b + nodeListSize rest
      omega
    · have := ih h'
      show nodeSize b ≤ 1 + nodeSize c + nodeListSize rest
      omega

theorem nsNameAndBody_snd_mem :
    ∀ (cs : List Node) (p : Option Str × Option Node) (b : Node),
      (cs.foldl (fun q c =>
        if c.ty = str "namespace_identifier" then (some c.text, q.2)
        else if c.ty = str "declaration_list" then (q.1, some c) else q) p).2 = some b →
      p.2 = some b ∨ b ∈ cs := by
  intro cs
  induction cs with
  | nil => intro p b h; exact Or.inl h
  | cons c rest ih =>
    intro p b h
    rw [List.foldl_cons] at h
    rcases ih _ b h with h' | h'
    · by_cases h1 : c.ty = str "namespace_identifier"
      · rw [if_pos h1] at h'
        exact Or.inl h'
      · rw [if_neg h1] at h'
        by_cases h2 : c.ty = str "declaration_list"
        · rw [if_pos h2] at h'
          have hcb : c = b := Option.some.inj h'
          exact Or.inr (hcb ▸ List.mem_cons_self c rest)
        · rw [if_neg h2] at h'
          exact Or.inl h'
    · exact Or.inr (List.mem_cons_of_mem c h')

theorem nsNameAndBody_body_mem {cs : List Node} {x : Option Str} {b : Node}
    (h : nsNameAndBody cs = (x, some b)) : b ∈ cs := by
  have h2 : (nsNameAndBody cs).2 = some b := by rw [h]
  unfold nsNameAndBody at h2
  rcases nsNameAndBody_snd_mem cs (none, none) b h2 with h' | h'
  · simp at h'
  · exact h'

theorem findClass_fuel_irrelevant :
    ∀ f : Nat,
      (∀ (g : Nat) (n : Node) (t : Str) (ns : List Str), nodeSize n ≤ f → nodeSize n ≤ g →
        findClassFuel f n t ns = findClassFuel g n t ns) ∧
      (∀ (g : Nat) (cs : List Node) (t : Str) (ns : List Str),
        nodeListSize cs ≤ f → nodeListSize cs ≤ g →
        findClassListFuel f cs t ns = findClassListFuel g cs t ns) := by
  intro f
  induction f using Nat.strong_induction_on with
  | _ f ih =>
    constructor
    · intro g n t ns hf hg
      obtain ⟨ty, tx, cs⟩ := n
      have hsz : nodeSize (Node.mk ty tx cs) = 1 + nodeListSize cs := rfl
      have hcp : 1 ≤ nodeListSize cs := nodeListSize_pos cs
      obtain ⟨f', rfl⟩ : ∃ f', f = f' + 1 := ⟨f - 1, by omega⟩
      obtain ⟨g', rfl⟩ : ∃ g', g = g' + 1 := ⟨g - 1, by omega⟩
      simp only [findClassFuel, Node.ty, Node.children]
      cases hpc : (if ty = str "class_specifier" then parseClass (Node.mk ty tx cs) t ns
          else none) with
      | some ci => rfl
      | none =>
        dsimp only
        by_cases hns : ty = str "namespace_definition"
        · rw [if_pos hns, if_pos hns]
          rcases hnn : nsNameAndBody cs with ⟨nm?, b?⟩
          cases nm? with
          | none =>
            cases b? with
            | none =>
              dsimp only
              exact (ih f' (by omega)).2 g' cs t ns (by omega) (by omega)
            | some b =>
              dsimp only
              exact (ih f' (by omega)).2 g' cs t ns (by omega) (by omega)
          | some nm =>
            cases b? with
            | none =>
              dsimp only
              exact (ih f' (by omega)).2 g' cs t ns (by omega) (by omega)
            | some b =>
              dsimp only
              have hbmem : b ∈ cs := nsNameAndBody_body_mem hnn
              have hble : nodeSize b ≤ nodeListSize cs := nodeSize_le_of_mem hbmem
              have hbch : nodeSize b = 1 + nodeListSize b.children := nodeSize_children b
              exact (ih f' (by omega)).2 g' b.children t (ns ++ [nm]) (by omega) (by omega)
        · rw [if_neg hns, if_neg hns]
          exact (ih f' (by omega)).2 g' cs t ns (by omega) (by omega)
    · intro g cs t ns hf hg
      cases cs with
      | nil =>
        cases f with
        | zero =>
          cases g with
          | zero => rfl
          | succ g' => rfl
        | succ f' =>
          cases g with
          | zero => rfl
          | succ g' => rfl
      | cons c rest =>
        have hsz : nodeListSize (c :: rest) = 1 + nodeSize c + nodeListSize rest := rfl
        have hc1 : 1 ≤ nodeSize c := nodeSize_pos c
        have hr1 : 1 ≤ nodeListSize rest := nodeListSize_pos rest
        obtain ⟨f', rfl⟩ : ∃ f', f = f' + 1 := ⟨f - 1, by omega⟩
        obtain ⟨g', rfl⟩ : ∃ g', g = g' + 1 := ⟨g - 1, by omega⟩
        simp only [findClassListFuel]
        have hcfc : findClassFuel f' c t ns = findClassFuel g' c t ns :=
          (ih f' (by omega)).1 g' c t ns (by omega) (by omega)
        rw [hcfc]
        cases hx : findClassFuel g' c t ns with
        | some ci => rfl
        | none =>
          dsimp only
          exact (ih f' (by omega)).2 g' rest t ns (by omega) (by omega)
